import Mathlib

/-!
Verification development for the PlanSo scraping tool
(src/reference/PlanSo/tool.py): a shallow embedding of the
extraction/normalization pipeline, the persistence layer, the sync
orchestrator and the query engine, together with theorems settling the
specification claims.

Modelling conventions:
* Python dicts are association lists (List (String x v)) that keep
  insertion order and unique keys, manipulated only through pyGet /
  pySet / pySetIfAbsent below, which reproduce CPython dict semantics.
* Python str.strip is pyStrip on List Char; finite machine floats are
  modelled as rationals; the builtin float() is modelled by pyFloatCore,
  a parser for decimal/exponent literals with underscore digit grouping
  and for the signed case-insensitive inf/nan spellings (PyFloat).
* Regular-expression engines (re, BeautifulSoup) are external libraries:
  fixed patterns used by the tool are translated into explicit character
  scanners with the same semantics (maximal digit runs, literal
  alternations, bounded repetitions), and tree/regex HTML extraction is
  modelled over the already-matched structures the library hands back to
  the tool's own loops.
-/

/-- Membership test for a Python dict modelled as an association list. -/
def pyHasKey (d : List (String × α)) (k : String) : Bool :=
  d.any (fun p => p.1 = k)

/-- Lookup in a Python dict (dict.get, returning None when absent). -/
def pyGet (d : List (String × α)) (k : String) : Option α :=
  (d.find? (fun p => p.1 = k)).map (·.2)

/-- Lookup with a default (dict.get(k) or default, merging None and falsy). -/
def pyGetD (d : List (String × α)) (k : String) (v : α) : α :=
  (pyGet d k).getD v

/-- Assignment d[k] = v on a Python dict: updates the value in place when
the key exists (keeping its position), else appends the binding. -/
def pySet (d : List (String × α)) (k : String) (v : α) : List (String × α) :=
  if pyHasKey d k then
    d.map (fun p => if p.1 = k then (k, v) else p)
  else
    d ++ [(k, v)]

/-- Conditional insertion used by loops of the form
"if key not in out: out[key] = v". -/
def pySetIfAbsent (d : List (String × α)) (k : String) (v : α) :
    List (String × α) :=
  if pyHasKey d k then d else d ++ [(k, v)]

/-- ASCII decimal digit test. -/
def isDigitCh (c : Char) : Bool :=
  decide ('0' ≤ c) && decide (c ≤ '9')

/-- ASCII alphanumeric test, the character class A-Za-z0-9. -/
def isAlnumCh (c : Char) : Bool :=
  isDigitCh c || (decide ('a' ≤ c) && decide (c ≤ 'z')) ||
    (decide ('A' ≤ c) && decide (c ≤ 'Z'))

/-- Whitespace class used by str.strip and the regex class backslash-s. -/
def isSpaceCh (c : Char) : Bool :=
  c = ' ' || c = '\t' || c = '\n' || c = '\r' ||
    c = (Char.ofNat 11) || c = (Char.ofNat 12)

/-- Model of str.strip(): drop leading and trailing whitespace. -/
def pyStrip (cs : List Char) : List Char :=
  ((cs.dropWhile isSpaceCh).reverse.dropWhile isSpaceCh).reverse

/-- Numeric value of a digit string (most significant digit first). -/
def natOfDigits (cs : List Char) : Nat :=
  cs.foldl (fun a c => a * 10 + (c.toNat - 48)) 0

/-- Split a list at the first character satisfying p, dropping it;
the second component is none when no character satisfies p. -/
def splitAtFirst (p : Char → Bool) : List Char → List Char × Option (List Char)
  | [] => ([], none)
  | c :: cs =>
      if p c then ([], some cs)
      else
        let r := splitAtFirst p cs
        (c :: r.1, r.2)

/-- Strip one optional leading sign; the Bool is true for a minus sign. -/
def stripSign : List Char → Bool × List Char
  | [] => (false, [])
  | c :: cs =>
      if c = '+' then (false, cs)
      else if c = '-' then (true, cs)
      else (false, c :: cs)

/-- Maximal run of characters satisfying p, with the remainder. -/
def takeRun (p : Char → Bool) : List Char → List Char × List Char
  | [] => ([], [])
  | c :: cs =>
      if p c then
        let r := takeRun p cs
        (c :: r.1, r.2)
      else ([], c :: cs)

/-- Mantissa value of a float literal: integer and fractional digit parts.
Fails unless both parts are digit strings and at least one is nonempty. -/
def mantissaVal (ip fp : List Char) : Option ℚ :=
  if ip.all isDigitCh ∧ fp.all isDigitCh ∧ (ip ≠ [] ∨ fp ≠ []) then
    some ((natOfDigits ip : ℚ) + (natOfDigits fp : ℚ) / (10 : ℚ) ^ fp.length)
  else none

/-- The numeric-literal half of the Python builtin float() on a
character list already cleared of underscores: decimal and exponent
literals with optional signs. -/
def pyFloatNum (cs : List Char) : Option ℚ :=
  let es := splitAtFirst (fun c => c = 'e' || c = 'E') cs
  let ms := stripSign es.1
  let ds := splitAtFirst (fun c => c = '.') ms.2
  match mantissaVal ds.1 (ds.2.getD []) with
  | none => none
  | some m =>
      let v : ℚ := if ms.1 then -m else m
      match es.2 with
      | none => some v
      | some ep =>
          let esn := stripSign ep
          if esn.2 ≠ [] ∧ esn.2.all isDigitCh then
            some (if esn.1 then v / (10 : ℚ) ^ natOfDigits esn.2
                  else v * (10 : ℚ) ^ natOfDigits esn.2)
          else none

/-- The values float() can produce here: a finite value (as a rational),
a signed infinity (the Bool is the minus sign), or a NaN. -/
inductive PyFloat where
  | fin : ℚ → PyFloat
  | inf : Bool → PyFloat
  | nan : PyFloat
deriving DecidableEq

/-- The underscore rule of Python numeric literals: every underscore
must stand between two digits; valid grouping underscores are dropped,
any other underscore makes the literal invalid. The first argument is
the preceding character. -/
def deUnderscoreA : Option Char → List Char → Option (List Char)
  | _, [] => some []
  | prev, c :: cs =>
      if c = '_' then
        match prev, cs with
        | some p, d :: _ =>
            if isDigitCh p && isDigitCh d then deUnderscoreA (some c) cs
            else none
        | _, _ => none
      else (deUnderscoreA (some c) cs).map (c :: ·)

/-- Model of str.lower restricted to the characters the tool meets:
ASCII letters plus the German umlauts appearing in its patterns. -/
def pyLowerCh (c : Char) : Char :=
  if decide ('A' ≤ c) && decide (c ≤ 'Z') then Char.ofNat (c.toNat + 32)
  else if c = 'Ä' then 'ä'
  else if c = 'Ö' then 'ö'
  else if c = 'Ü' then 'ü'
  else c

/-- Model of the Python builtin float() on an already-stripped character
list: the case-insensitive inf, infinity and nan spellings with an
optional sign, and decimal or exponent literals with underscore digit
grouping. -/
def pyFloatCore (cs : List Char) : Option PyFloat :=
  if (stripSign cs).2.map pyLowerCh = "inf".data ∨
      (stripSign cs).2.map pyLowerCh = "infinity".data then
    some (PyFloat.inf (stripSign cs).1)
  else if (stripSign cs).2.map pyLowerCh = "nan".data then
    some PyFloat.nan
  else
    match deUnderscoreA none cs with
    | none => none
    | some body => (pyFloatNum body).map PyFloat.fin

/-- The German-decimal preprocessing of tool.py line 193: delete every
full stop, then turn every comma into a decimal point. -/
def deTransform (cs : List Char) : List Char :=
  cs.filterMap (fun c => if c = '.' then none else
    some (if c = ',' then '.' else c))

/-- Model of _to_float_de (tool.py lines 183-197): strip, reject the
empty string, apply the separator transformation, and parse with the
float() model (which strips again, as the builtin does). -/
def to_float_de (s : String) : Option PyFloat :=
  let t := pyStrip s.data
  if t = [] then none
  else pyFloatCore (pyStrip (deTransform t))

/-- Gregorian leap-year rule, as implemented by datetime.date. -/
def isLeapYear (y : Nat) : Bool :=
  (y % 4 = 0 && decide (y % 100 ≠ 0)) || y % 400 = 0

/-- Days in a month, as enforced by the datetime.date constructor. -/
def daysInMonth (y m : Nat) : Nat :=
  if m = 2 then (if isLeapYear y then 29 else 28)
  else if m = 4 ∨ m = 6 ∨ m = 9 ∨ m = 11 then 30
  else 31

/-- Validity condition of datetime.date(y, m, d): it raises outside
these bounds (MINYEAR = 1, MAXYEAR = 9999). -/
def dateValid (y m d : Nat) : Bool :=
  1 ≤ y && y ≤ 9999 && 1 ≤ m && m ≤ 12 && 1 ≤ d && d ≤ daysInMonth y m

/-- Validity condition of the time fields of datetime.datetime. -/
def timeValid (hh mi ss : Nat) : Bool :=
  hh ≤ 23 && mi ≤ 59 && ss ≤ 59

/-- Zero-padded fixed-width decimal rendering, as date.isoformat
produces for its calendar-bounded fields (widths 4 and 2). -/
def padNum (w n : Nat) : String :=
  String.mk ((List.range w).reverse.map
    (fun i => Char.ofNat (48 + n / 10 ^ i % 10)))

/-- ISO rendering of a date, as date(y, m, d).isoformat(). -/
def isoDateStr (y m d : Nat) : String :=
  padNum 4 y ++ "-" ++ padNum 2 m ++ "-" ++ padNum 2 d

/-- ISO rendering of a datetime with seconds precision. -/
def isoDateTimeStr (y mo d hh mi ss : Nat) : String :=
  isoDateStr y mo d ++ "T" ++ padNum 2 hh ++ ":" ++ padNum 2 mi ++ ":" ++
    padNum 2 ss

/-- Model of the fullmatch of the ISO-shape pattern of tool.py line 161:
four digits, dash, two digits, dash, two digits, nothing else.  The
pattern performs no calendar validation. -/
def isoShapeCheck : List Char → Bool
  | [y1, y2, y3, y4, s1, m1, m2, s2, d1, d2] =>
      s1 = '-' && s2 = '-' && isDigitCh y1 && isDigitCh y2 && isDigitCh y3 &&
        isDigitCh y4 && isDigitCh m1 && isDigitCh m2 && isDigitCh d1 &&
        isDigitCh d2
  | _ => false

/-- Shared front of the two German-date patterns of tool.py lines 164 and
172: one-or-two digits, dot, one-or-two digits, dot, four digits; returns
the captured day/month/year and the remaining characters. -/
def deDatePrefix (cs : List Char) : Option (Nat × Nat × Nat × List Char) :=
  let d := takeRun isDigitCh cs
  if d.1 = [] ∨ 2 < d.1.length then none
  else
    match d.2 with
    | '.' :: r2 =>
        let m := takeRun isDigitCh r2
        if m.1 = [] ∨ 2 < m.1.length then none
        else
          match m.2 with
          | '.' :: r4 =>
              let y := takeRun isDigitCh r4
              if y.1.length = 4 then
                some (natOfDigits d.1, natOfDigits m.1, natOfDigits y.1, y.2)
              else none
          | _ => none
    | _ => none

/-- Model of the fullmatch of the German date pattern (tool.py line 164). -/
def deDateShape (cs : List Char) : Option (Nat × Nat × Nat) :=
  match deDatePrefix cs with
  | some (d, m, y, []) => some (d, m, y)
  | _ => none

/-- Model of the fullmatch of the German datetime pattern (tool.py line
172): the date part, whitespace, then hh:mm:ss with two-digit minutes
and seconds. -/
def deDateTimeShape (cs : List Char) :
    Option (Nat × Nat × Nat × Nat × Nat × Nat) :=
  match deDatePrefix cs with
  | none => none
  | some (d, m, y, rest) =>
      let w := takeRun isSpaceCh rest
      if w.1 = [] then none
      else
        let hh := takeRun isDigitCh w.2
        if hh.1 = [] ∨ 2 < hh.1.length then none
        else
          match hh.2 with
          | ':' :: r2 =>
              let mi := takeRun isDigitCh r2
              if mi.1.length = 2 then
                match mi.2 with
                | ':' :: r3 =>
                    let ss := takeRun isDigitCh r3
                    if ss.1.length = 2 && ss.2 = [] then
                      some (d, m, y, natOfDigits hh.1, natOfDigits mi.1,
                        natOfDigits ss.1)
                    else none
                | _ => none
              else none
          | _ => none

/-- Model of _parse_german_date_or_datetime (tool.py lines 148-180):
empty input short-circuits; an ISO-shaped string is returned unchanged
with no calendar check; German date and datetime forms are converted
through the (validating) datetime constructors, whose exceptions are
caught and turned into (none, none). -/
def parse_german_date_or_datetime (s : String) : Option String × Option String :=
  if s = "" then (none, none)
  else
    let t := pyStrip s.data
    if isoShapeCheck t then (some (String.mk t), none)
    else
      match deDateShape t with
      | some (d, mo, y) =>
          if dateValid y mo d then (some (isoDateStr y mo d), none)
          else (none, none)
      | none =>
          match deDateTimeShape t with
          | some (d, mo, y, hh, mi, ss) =>
              if dateValid y mo d && timeValid hh mi ss then
                (some (isoDateStr y mo d),
                 some (isoDateTimeStr y mo d hh mi ss))
              else (none, none)
          | none => (none, none)

/-- Character class of the station-state capture: letters or underscore. -/
def isStationWordCh (c : Char) : Bool :=
  (decide ('a' ≤ c) && decide (c ≤ 'z')) ||
    (decide ('A' ≤ c) && decide (c ≤ 'Z')) || c = '_'

/-- Model of parse_station (tool.py lines 384-394): fullmatch of digits,
at-sign, word; the state is lowercased. -/
def parse_station (s : String) : Option Int × Option String :=
  if s = "" then (none, none)
  else
    let t := pyStrip s.data
    let d := takeRun isDigitCh t
    if d.1 = [] then (none, none)
    else
      match d.2 with
      | '@' :: rest =>
          let w := takeRun isStationWordCh rest
          if decide (w.1 ≠ []) && decide (w.2 = []) then
            ((some (natOfDigits d.1 : Int)),
             some (String.mk (w.1.map pyLowerCh)))
          else (none, none)
      | _ => (none, none)

/-- Boolean prefix test on character lists. -/
def prefixOfCh : List Char → List Char → Bool
  | [], _ => true
  | _ :: _, [] => false
  | a :: as, b :: bs => a = b && prefixOfCh as bs

/-- Boolean contiguous-substring test on character lists. -/
def subListCh (pat : List Char) : List Char → Bool
  | [] => prefixOfCh pat []
  | c :: cs => prefixOfCh pat (c :: cs) || subListCh pat cs

/-- Model of re.search for the sub-pattern nicht-dot-star-da: an
occurrence of nicht followed, with no intervening newline, by da. -/
def nichtDaSearch : List Char → Bool
  | [] => false
  | c :: cs =>
      (prefixOfCh "nicht".data (c :: cs) &&
        subListCh "da".data (((c :: cs).drop 5).takeWhile
          (fun x => decide (x ≠ '\n')))) ||
      nichtDaSearch cs

/-- Model of the case-insensitive missing-keyword search of tool.py line
1817: any of the literal alternatives, or the nicht-dot-star-da branch. -/
def missingKeywordSearch (s : String) : Bool :=
  let t := s.data.map pyLowerCh
  subListCh "fehlt".data t || subListCh "offen".data t ||
    subListCh "rückstand".data t || subListCh "wartet".data t ||
    nichtDaSearch t || subListCh "backorder".data t ||
    subListCh "unvollständig".data t

/-- Model of the case-insensitive no-parts search of tool.py line 1814:
the pattern ohne-e-optional-hyphen-teile. -/
def ohneTeileSearch (s : String) : Bool :=
  let t := s.data.map pyLowerCh
  subListCh "ohne eteile".data t || subListCh "ohne e-teile".data t

/-- Values of a project-summary dict as delivered by the JSON collection
endpoint: absent keys surface as Python None via dict.get. -/
inductive PyVal where
  | vnone : PyVal
  | vint : Int → PyVal
  | vstr : String → PyVal
deriving DecidableEq

/-- Python truthiness of the modelled values. -/
def pyTruthy : PyVal → Bool
  | .vnone => false
  | .vint n => decide (n ≠ 0)
  | .vstr s => decide (s ≠ "")

/-- Model of the str() builtin on the modelled values. -/
def pyStr : PyVal → String
  | .vnone => "None"
  | .vint n => toString n
  | .vstr s => s

/-- Model of the expression x or y on the modelled values. -/
def pyOrElse (v d : PyVal) : PyVal :=
  if pyTruthy v then v else d

/-- Model of the int() builtin: integers pass through, strings must be a
stripped optionally-signed digit string, anything else raises. -/
def pyIntOfVal : PyVal → Option Int
  | .vnone => none
  | .vint n => some n
  | .vstr s =>
      let t := pyStrip s.data
      let g := stripSign t
      if decide (g.2 ≠ []) && g.2.all isDigitCh then
        some (if g.1 then -(natOfDigits g.2 : Int) else (natOfDigits g.2 : Int))
      else none

/-- Lookup of a field label with the conventional or-empty-string default
(visual_fields.get(label) or ""). -/
def vfGet (vf : List (String × String)) (l : String) : String :=
  pyGetD vf l ""

/-- Model of a Python or-chain over strings whose falsy value is the
empty string. -/
def strOr (a b : String) : String :=
  if a = "" then b else a

/-- One parsed part row, with the columns db_replace_parts persists (the
raw audit sub-dict is not modelled: no claim reads it). -/
structure PartRow where
  part_no : String
  description : String
  lead_no : String
  order_no : String
  row_id : Option String
  part_id : Option String
  qty : Option ℚ
  price_each : Option ℚ
  price_total : Option ℚ
  status : String
  status_code : String
  status_icon : String
  order_date : String
  delivery_date : String
  eta_date : String
  is_missing : Bool
  is_to_order : Bool
  is_ordered : Bool
  is_delivered : Bool
  is_backorder : Bool
  is_mandatory : Bool
  is_price_checked : Bool
deriving DecidableEq

/-- A part row carrying only defaults, for building concrete rows. -/
def blankPart : PartRow :=
  { part_no := "", description := "", lead_no := "", order_no := ""
    row_id := none, part_id := none, qty := none, price_each := none
    price_total := none, status := "", status_code := "", status_icon := ""
    order_date := "", delivery_date := "", eta_date := ""
    is_missing := false, is_to_order := false, is_ordered := false
    is_delivered := false, is_backorder := false, is_mandatory := false
    is_price_checked := false }

/-- Model of the missing-parts block of build_order_row (tool.py lines
1810-1823), exactly in source order: resolve the status string, run the
no-parts check, else the keyword check, and only afterwards refine from
the individual part rows. -/
def missingPartsFlag (parts_status : String) (vf : List (String × String))
    (parts_list : List PartRow) : Bool :=
  let eparts_status := vfGet vf "E-Teile Status"
  let psf := strOr parts_status eparts_status
  let m0 : Bool :=
    if ohneTeileSearch psf then false
    else if missingKeywordSearch psf then true
    else false
  if decide (parts_list ≠ []) && parts_list.any (·.is_missing) then true
  else m0

/-- Model of _extract_vehicle_info (tool.py lines 1736-1763): the fixed
label-to-key mapping in source order, then the four table-metadata
fallbacks that only fill absent keys. -/
def extract_vehicle_info (vf : List (String × String))
    (parts_meta : List (String × String)) : List (String × String) :=
  let mapping : List (String × String) :=
    [("VIN", "vin"), ("KBA", "kba"), ("Farbe Nummer", "color_code"),
     ("Farbton", "color_name"), ("Kennzeichen", "plate"),
     ("Kilometerstand", "mileage"), ("Fahrzeug", "vehicle"),
     ("Klasse", "class"), ("Leasing/Flotte", "leasing")]
  let out := mapping.foldl
    (fun out p =>
      let val := vfGet vf p.1
      if val ≠ "" then pySet out p.2 val else out) []
  let metaStep := fun (out : List (String × String)) (mk ok : String) =>
    if decide (vfGet parts_meta mk ≠ "") && !(pyHasKey out ok) then
      pySet out ok (vfGet parts_meta mk)
    else out
  let out := metaStep out "data-vin" "vin"
  let out := metaStep out "data-make" "make"
  let out := metaStep out "data-number_plate" "plate"
  metaStep out "data-pnum" "order_no"

/-- The canonical order row assembled by build_order_row, with the
columns of the orders table; the two serialized JSON maps are kept in
structured form (json.dumps is injective on them). -/
structure OrderRow where
  id : Int
  short_name : String
  plate : String
  person : String
  phone : String
  email : String
  damage : String
  project_status : String
  station_id : Option Int
  station_state : Option String
  shop_date : String
  repair_date : String
  finish_date : String
  planned_delivery_date : String
  parts_status : String
  missing_parts : Bool
  est_hours_karo : Option PyFloat
  est_hours_lack : Option PyFloat
  est_hours_mech : Option PyFloat
  fields_json : List (String × String)
  vehicle_json : List (String × String)
  last_synced_at : String
deriving DecidableEq

/-- Model of build_order_row (tool.py lines 1766-1857).  The only
fallible step is pid = int(proj.get("ID")) on line 1774, which raises a
TypeError or ValueError when the key is absent or not integer-like;
every other lookup carries a default.  The wall-clock _now_iso() is
passed in as the parameter now. -/
def build_order_row (proj : List (String × PyVal))
    (visual_fields : List (String × String)) (parts_status : String)
    (parts_list : List PartRow) (parts_meta : List (String × String))
    (now : String) : Except String OrderRow :=
  match pyIntOfVal (pyGetD proj "ID" .vnone) with
  | none => .error "int() of proj ID raised"
  | some pid =>
      let short_name :=
        (String.mk (pyStrip (pyStr (pyOrElse (pyGetD proj "short_name" .vnone)
          (.vstr ""))).data))
      let st := parse_station (pyStr (pyOrElse (pyGetD proj "station" .vnone)
        (.vstr "")))
      let person := strOr (vfGet visual_fields "Fahrername")
        (vfGet visual_fields "Halter")
      let phone := strOr (vfGet visual_fields "Telefon")
        (vfGet visual_fields "Telefonnummer")
      let email := strOr (vfGet visual_fields "Kunden E-Mail")
        (vfGet visual_fields "E-Mail")
      let damage := strOr (vfGet visual_fields "Kategorie")
        (strOr (vfGet visual_fields "Damage")
          (pyStr (pyOrElse (pyGetD proj "finish_date" .vnone) (.vstr ""))))
      let project_status := vfGet visual_fields "Projekt-Status"
      let w := vfGet visual_fields "Werkstattstart"
      let shop_date := strOr
        (((parse_german_date_or_datetime w).1).getD "") w
      let repair_date :=
        ((parse_german_date_or_datetime
          (strOr (vfGet visual_fields "Fahrzeugeingang (Soll)")
            (vfGet visual_fields "Fahrzeugeingang (Ist)"))).1).getD ""
      let tf := vfGet visual_fields "Termin Fertigstellung"
      let finish_date := strOr
        (((parse_german_date_or_datetime tf).1).getD "") tf
      let pa := vfGet visual_fields "Plan Auslieferung"
      let planned_delivery := strOr
        (((parse_german_date_or_datetime pa).1).getD "") pa
      let eparts_status := vfGet visual_fields "E-Teile Status"
      let parts_status_final := strOr parts_status eparts_status
      let missing_parts := missingPartsFlag parts_status visual_fields parts_list
      let est_karo := to_float_de (vfGet visual_fields "Sollstunden Karo")
      let est_lack := to_float_de (vfGet visual_fields "Sollstunden Lack")
      let est_mech := to_float_de (vfGet visual_fields "Sollstunden Mech")
      let plate := strOr (vfGet visual_fields "Kennzeichen")
        (strOr (vfGet visual_fields "Fahrzeug") short_name)
      let vehicle_info := extract_vehicle_info visual_fields parts_meta
      .ok
        { id := pid, short_name := short_name, plate := plate
          person := person, phone := phone, email := email, damage := damage
          project_status := project_status, station_id := st.1
          station_state := st.2, shop_date := shop_date
          repair_date := repair_date, finish_date := finish_date
          planned_delivery_date := planned_delivery
          parts_status := parts_status_final, missing_parts := missing_parts
          est_hours_karo := est_karo, est_hours_lack := est_lack
          est_hours_mech := est_mech, fields_json := visual_fields
          vehicle_json := vehicle_info, last_synced_at := now }

/-- Natural key of a parsed part row: (part number, description), as in
the uniq dicts of tool.py lines 1374 and 1476 (the or-empty-string
defaults are identities on the modelled string fields). -/
def partKey (p : PartRow) : String × String :=
  (p.part_no, p.description)

/-- Model of the first-wins uniq dict of tool.py lines 1371-1377: insert
a row only when its key is unseen; values() preserves insertion order. -/
def dedupFirstByKey (ps : List PartRow) : List PartRow :=
  ps.foldl
    (fun acc p =>
      if acc.any (fun q => partKey q = partKey p) then acc
      else acc ++ [p]) []

/-- Model of the dict comprehension of tool.py line 1476: every row is
assigned, so a repeated key keeps its first position but ends up with the
value of the last occurrence. -/
def dedupDictByKey (ps : List PartRow) : List PartRow :=
  ps.foldl
    (fun acc p =>
      if acc.any (fun q => partKey q = partKey p) then
        acc.map (fun q => if partKey q = partKey p then p else q)
      else acc ++ [p]) []

/-- Model of the deduplication plumbing of _parse_parts_from_html: the
rows produced by the parts-table path short-circuit through the
first-wins uniq dict (lines 1371-1377); otherwise the generic-table rows
(or, when those are empty, the bare data-attribute rows, line 1446) flow
into the dict comprehension of line 1476.  Row extraction itself is the
work of the external HTML/regex engines and enters as the three lists. -/
def parse_parts_dedup (partsTableRows genericRows dataAttrRows :
    List PartRow) : List PartRow :=
  if partsTableRows ≠ [] then dedupFirstByKey partsTableRows
  else
    let parts := genericRows
    let parts := if parts = [] then dataAttrRows else parts
    dedupDictByKey parts

/-- A select control as the extractors see it: option texts (already
normalized, with the text-or-value resolution folded in) and their
selected flags. -/
structure SelectCtl where
  options : List (String × Bool)
deriving DecidableEq

/-- An input control: lowercased type attribute, checked flag, value
attribute (empty when absent). -/
structure InputCtl where
  type : String
  checked : Bool
  value : String
deriving DecidableEq

/-- Selected-option-else-first-option resolution, shared by both
tree-based extractors (tool.py lines 441-443 and 515-517). -/
def selectValue (s : SelectCtl) : String :=
  match s.options.find? (·.2) with
  | some o => o.1
  | none =>
      match s.options.head? with
      | some o => o.1
      | none => ""

/-- Input resolution: checkbox/radio render their checked state, other
types their value attribute (tool.py lines 447-451 and 520-524). -/
def inputValue (i : InputCtl) : String :=
  if i.type = "checkbox" ∨ i.type = "radio" then
    (if i.checked then "True" else "False")
  else i.value

/-- One field container of the visual_forms_plain form: the label text
found in it (none when the div has no label element) and the first
select / input / textarea it contains. -/
structure FieldDiv where
  label : Option String
  sel : Option SelectCtl
  inp : Option InputCtl
  ta : Option String
deriving DecidableEq

/-- Control precedence inside one field div: select, else input, else
textarea, else the empty string (tool.py lines 436-455). -/
def fieldDivValue (f : FieldDiv) : String :=
  match f.sel with
  | some s => selectValue s
  | none =>
      match f.inp with
      | some i => inputValue i
      | none =>
          match f.ta with
          | some t => t
          | none => ""

/-- Model of the tree-based branch of parse_visual_forms_plain_fields
(tool.py lines 421-459), iterating over the field divs the HTML library
found: note the unconditional assignment of line 457. -/
def plain_fields_tree (fields : List FieldDiv) : List (String × String) :=
  fields.foldl
    (fun out f =>
      match f.label with
      | none => out
      | some l => if l = "" then out else pySet out l (fieldDivValue f)) []

/-- Model of the regex fallback branch of parse_visual_forms_plain_fields
(tool.py lines 406-419), iterating over the (label, value) captures of
the pattern, already tag-stripped and normalized: line 417 only inserts
unseen nonempty labels. -/
def plain_fields_regex (ms : List (String × String)) :
    List (String × String) :=
  ms.foldl
    (fun out m =>
      if m.1 ≠ "" then pySetIfAbsent out m.1 m.2 else out) []

/-- The value candidates the regex of _parse_html_label_value_pairs finds
in the bounded window after one label: first input value, selected
option text, textarea text (each already normalized). -/
structure AfterWindow where
  inputVal : Option String
  selOpt : Option String
  taText : Option String
deriving DecidableEq

/-- Value resolution inside one window (tool.py lines 496-506): the
input value, else (when still empty) the selected option, else (when
still empty) the textarea text. -/
def afterWindowValue (w : AfterWindow) : String :=
  let v := (w.inputVal).getD ""
  let v := if v = "" then (w.selOpt).getD "" else v
  if v = "" then (w.taText).getD "" else v

/-- Model of the regex branch of _parse_html_label_value_pairs (tool.py
lines 486-509): skip empty or already-seen labels, store only nonempty
values. -/
def label_value_pairs_regex (ms : List (String × AfterWindow)) :
    List (String × String) :=
  ms.foldl
    (fun out m =>
      if m.1 = "" ∨ pyHasKey out m.1 then out
      else
        let v := afterWindowValue m.2
        if v ≠ "" then out ++ [(m.1, v)] else out) []

/-- A form control as resolved by the label-to-control chain of the
tree-based _parse_html_label_value_pairs. -/
inductive Ctl where
  | selectC : SelectCtl → Ctl
  | textareaC : String → Ctl
  | inputC : InputCtl → Ctl
deriving DecidableEq

/-- Model of value_from_control (tool.py lines 513-525). -/
def value_from_control : Ctl → String
  | .selectC s => selectValue s
  | .textareaC t => t
  | .inputC i => inputValue i

/-- One label element together with the control resolved for it via the
for-id reference, containment, parent or following-element chain (tool.py
lines 532-541); none when that chain found no control. -/
structure LabelNode where
  label : String
  ctrl : Option Ctl
deriving DecidableEq

/-- The value one label node contributes: empty when the resolution
chain found no control, else the resolved control's value. -/
def labelNodeValue (lb : LabelNode) : String :=
  match lb.ctrl with
  | none => ""
  | some c => value_from_control c

/-- Model of the tree-based branch of _parse_html_label_value_pairs
(tool.py lines 527-548): skip empty or already-seen labels, skip labels
without a control, store only nonempty values. -/
def label_value_pairs_tree (labs : List LabelNode) :
    List (String × String) :=
  labs.foldl
    (fun out lb =>
      if lb.label = "" ∨ pyHasKey out lb.label then out
      else
        match lb.ctrl with
        | none => out
        | some c =>
            let v := value_from_control c
            if v ≠ "" then out ++ [(lb.label, v)] else out) []

/-- One row of the parts table (PRIMARY KEY (order_id, part_no,
description), tool.py line 840). -/
structure PartDbRow where
  order_id : Int
  part : PartRow
deriving DecidableEq

/-- The payload db_upsert_sections stores for one named section. -/
structure SectionPayload where
  content_type : String
  raw_text : String
  data_json : String
deriving DecidableEq

/-- One row of the order_sections table (PRIMARY KEY (order_id, section),
tool.py line 850). -/
structure SectionDbRow where
  order_id : Int
  section_name : String
  content_type : String
  raw_text : String
  data_json : String
  last_synced_at : String
deriving DecidableEq

/-- The relational store: the four tables of the schema.  Row order
inside a table is not observable through SQL, so lists here are a
convenience representation of row multisets. -/
structure Db where
  orders : List OrderRow
  parts : List PartDbRow
  sections : List SectionDbRow
  employees : List (String × String)
deriving DecidableEq

/-- The empty store right after db_connect creates the schema. -/
def emptyDb : Db :=
  { orders := [], parts := [], sections := [], employees := [] }

/-- Model of db_upsert_order (tool.py lines 913-922): INSERT ON CONFLICT
(id) DO UPDATE of every column, i.e. the row with this id, if any, is
replaced wholesale. -/
def db_upsert_order (db : Db) (row : OrderRow) : Db :=
  { db with orders :=
      db.orders.filter (fun r => decide (r.id ≠ row.id)) ++ [row] }

/-- Model of one INSERT OR REPLACE into parts: SQLite deletes any row
with the same primary key and inserts the new one. -/
def partInsertOrReplace (ps : List PartDbRow) (r : PartDbRow) :
    List PartDbRow :=
  ps.filter (fun q =>
    decide (¬ (q.order_id = r.order_id ∧ partKey q.part = partKey r.part)))
    ++ [r]

/-- Model of db_replace_parts (tool.py lines 933-973): DELETE every part
of this order, then INSERT OR REPLACE the new rows in order. -/
def db_replace_parts (db : Db) (oid : Int) (parts : List PartRow) : Db :=
  { db with parts :=
      (parts.foldl (fun acc p => partInsertOrReplace acc ⟨oid, p⟩)
        (db.parts.filter (fun q => decide (q.order_id ≠ oid)))) }

/-- The order_sections row db_upsert_sections builds for one named
payload entry (tool.py lines 978-991). -/
def sectionRowOf (now : String) (oid : Int) (s : String × SectionPayload) :
    SectionDbRow :=
  { order_id := oid, section_name := s.1, content_type := s.2.content_type
    raw_text := s.2.raw_text, data_json := s.2.data_json
    last_synced_at := now }

/-- Model of one INSERT OR REPLACE into order_sections. -/
def sectionInsertOrReplace (ss : List SectionDbRow) (r : SectionDbRow) :
    List SectionDbRow :=
  ss.filter (fun q =>
    decide (¬ (q.order_id = r.order_id ∧ q.section_name = r.section_name))) ++ [r]

/-- Model of db_upsert_sections (tool.py lines 976-992): one INSERT OR
REPLACE per named section — note that, unlike db_replace_parts, nothing
is deleted first. -/
def db_upsert_sections (db : Db) (now : String) (oid : Int)
    (sections : List (String × SectionPayload)) : Db :=
  { db with sections :=
      (sections.foldl
        (fun acc s => sectionInsertOrReplace acc (sectionRowOf now oid s))
        db.sections) }

/-- Modelled from the spec: the write discipline the specification
describes for Sections — "delete all for this parent, then bulk-insert
the current set" (full replacement) — for comparison with
db_upsert_sections above. -/
def spec_replace_sections (db : Db) (now : String) (oid : Int)
    (sections : List (String × SectionPayload)) : Db :=
  { db with sections :=
      (sections.foldl
        (fun acc s => sectionInsertOrReplace acc (sectionRowOf now oid s))
        (db.sections.filter (fun q => decide (q.order_id ≠ oid)))) }

/-- Model of db_upsert_employees (tool.py lines 925-930). -/
def db_upsert_employees (db : Db) (emp : List (String × String)) : Db :=
  { db with employees :=
      (emp.foldl
        (fun acc e => acc.filter (fun q => decide (q.1 ≠ e.1)) ++ [e])
        db.employees) }

/-- Everything the pipeline of one record hands to the persistence
block: the order row, the incidental employee map, the parsed parts and
the fetched sections. -/
structure SyncPayload where
  row : OrderRow
  emp : List (String × String)
  parts : List PartRow
  sections : List (String × SectionPayload)
deriving DecidableEq

/-- Model of the per-record persistence block of cmd_sync (tool.py lines
2039-2049): employees, then parts, then sections, then the order row,
each guarded by non-emptiness exactly as in the source, committed as one
transaction. -/
def persistRecord (db : Db) (now : String) (pid : Int) (p : SyncPayload) :
    Db :=
  let db := if p.emp ≠ [] then db_upsert_employees db p.emp else db
  let db := if p.parts ≠ [] then db_replace_parts db pid p.parts else db
  let db := if p.sections ≠ [] then db_upsert_sections db now pid p.sections
    else db
  db_upsert_order db p.row

/-- One record of the project enumeration as the orchestrator sees it:
the id and display name read before the try block of sync_one, and the
outcome of the guarded pipeline (fetch, unwrap, parse, map — tool.py
lines 1966-2027), where a transport error raises into the except of line
2028 and everything else yields the payload to persist. -/
structure SyncRecord where
  pid : Int
  short_name : String
  pipeline : Except String SyncPayload

/-- The result dict sync_one returns: ok-with-payload or
failed-with-error (tool.py lines 2018-2029). -/
structure SyncResultRec where
  pid : Int
  short_name : String
  result : Except String SyncPayload

/-- Model of sync_one (tool.py lines 1962-2029): the try block either
returns the assembled payload or is caught into a failure result. -/
def sync_one (r : SyncRecord) : SyncResultRec :=
  { pid := r.pid, short_name := r.short_name, result := r.pipeline }

/-- The res.get("ok") dispatch of the cmd_sync result loops. -/
def resFailed (r : SyncResultRec) : Bool :=
  match r.result with
  | .ok _ => false
  | .error _ => true

/-- The orchestrator's running aggregate: the store plus the ok and fail
counters of cmd_sync. -/
structure SyncState where
  db : Db
  okCount : Nat
  failCount : Nat

/-- Model of the per-result branch of the cmd_sync loops (tool.py lines
2036-2057 and 2071-2092): persist and count ok, or count the failure. -/
def applySyncResult (now : String) (st : SyncState) (res : SyncResultRec) :
    SyncState :=
  match res.result with
  | .ok p =>
      { db := persistRecord st.db now res.pid p
        okCount := st.okCount + 1, failCount := st.failCount }
  | .error _ =>
      { db := st.db, okCount := st.okCount, failCount := st.failCount + 1 }

/-- Folding a completed result sequence into the store.  With jobs at
most 1 the sequence is exactly the submission order; with a worker pool
it is some completion order, i.e. a permutation of it (as_completed). -/
def runSyncResults (db0 : Db) (now : String)
    (results : List SyncResultRec) : SyncState :=
  results.foldl (applySyncResult now) { db := db0, okCount := 0, failCount := 0 }

/-- Model of the exit status of cmd_sync (tool.py line 2095). -/
def syncExitCode (st : SyncState) : Int :=
  if st.failCount = 0 then 0 else 1

/-- The rows of the orders table with this id. -/
def ordersFor (db : Db) (oid : Int) : List OrderRow :=
  db.orders.filter (fun r => decide (r.id = oid))

/-- The rows of the parts table belonging to this order. -/
def partsFor (db : Db) (oid : Int) : List PartDbRow :=
  db.parts.filter (fun q => decide (q.order_id = oid))

/-- The rows of the order_sections table belonging to this order. -/
def sectionsFor (db : Db) (oid : Int) : List SectionDbRow :=
  db.sections.filter (fun q => decide (q.order_id = oid))

/-- A record failed when its pipeline raised. -/
def recordFailed (r : SyncRecord) : Bool :=
  match r.pipeline with
  | .ok _ => false
  | .error _ => true

/-- An order id is present in the store. -/
def orderPresent (db : Db) (oid : Int) : Bool :=
  db.orders.any (fun r => r.id = oid)

/-- Character class of the free-text tokens of tool.py line 2174. -/
def isTokenCh (c : Char) : Bool :=
  isAlnumCh c || c = '-'

/-- Model of re.findall with the token pattern of tool.py line 2174
(alphanumeric runs optionally joined by single hyphens): a left-to-right
scan accumulating the current token in reverse, where a hyphen continues
the token only when flanked by alphanumerics. -/
def tokA : List Char → List Char → List (List Char)
  | acc, [] => if acc = [] then [] else [acc.reverse]
  | acc, c :: cs =>
      if isAlnumCh c then tokA (c :: acc) cs
      else if c = '-' then
        match acc, cs with
        | a :: as, d :: ds =>
            if isAlnumCh d then tokA (d :: '-' :: a :: as) ds
            else (a :: as).reverse :: tokA [] ds
        | _ :: _, [] => [acc.reverse]
        | [], ds => tokA [] ds
      else
        if acc = [] then tokA [] cs else acc.reverse :: tokA [] cs

/-- The token list of one query string. -/
def tokenizeCh (cs : List Char) : List (List Char) :=
  tokA [] cs

/-- Model of the query construction of tool.py line 2176: each token
double-quoted, joined with the AND connective. -/
def buildFtsQuery (tokens : List (List Char)) : List Char :=
  List.intercalate " AND ".data (tokens.map (fun t => '"' :: t ++ ['"']))

/-- One term of an FTS5 query: a double-quoted phrase (closing quote
required), or a bareword which must start alphanumerically — an initial
hyphen or other operator character is a query syntax error. -/
def ftsReadPhrase : List Char → Option (List Char × List Char)
  | [] => none
  | c :: cs =>
      if c = '"' then
        (match (takeRun (fun x => decide (x ≠ '"')) cs).2 with
         | '"' :: rest2 =>
             some ((takeRun (fun x => decide (x ≠ '"')) cs).1, rest2)
         | _ => none)
      else if isAlnumCh c then
        some (c :: (takeRun isAlnumCh cs).1, (takeRun isAlnumCh cs).2)
      else none

/-- Fuel-indexed parser for the modelled FTS5 MATCH grammar: one or more
terms joined by the AND connective; anything else is a syntax error
(OperationalError in sqlite3). -/
def ftsParseQueryF : Nat → List Char → Option (List (List Char))
  | 0, _ => none
  | fuel + 1, cs =>
      match ftsReadPhrase cs with
      | none => none
      | some (p, rest) =>
          match rest with
          | [] => some [p]
          | ' ' :: 'A' :: 'N' :: 'D' :: ' ' :: rest2 =>
              (ftsParseQueryF fuel rest2).map (p :: ·)
          | _ => none

/-- Model of parsing one FTS5 MATCH query (the parse consumes at least
one character per conjunct, so this fuel always suffices). -/
def ftsParseQuery (cs : List Char) : Option (List (List Char)) :=
  ftsParseQueryF (cs.length + 1) cs

/-- Lowercased maximal alphanumeric runs, accumulator version. -/
def splitARuns : List Char → List Char → List (List Char)
  | acc, [] => if acc = [] then [] else [acc.reverse.map pyLowerCh]
  | acc, c :: cs =>
      if isAlnumCh c then splitARuns (c :: acc) cs
      else if acc = [] then splitARuns [] cs
      else acc.reverse.map pyLowerCh :: splitARuns [] cs

/-- Model of the unicode61 index tokenizer of FTS5 restricted to the
ASCII range the store holds: maximal alphanumeric runs, lowercased (a
hyphen separates index tokens). -/
def splitAlnumRuns (cs : List Char) : List (List Char) :=
  splitARuns [] cs

/-- Boolean prefix test on lists of tokens. -/
def tokSeqPrefix : List (List Char) → List (List Char) → Bool
  | [], _ => true
  | _ :: _, [] => false
  | a :: as, b :: bs => a = b && tokSeqPrefix as bs

/-- Boolean contiguous-subsequence test on lists of tokens. -/
def tokSeqInfix (xs : List (List Char)) : List (List Char) → Bool
  | [] => xs.isEmpty
  | b :: bs => tokSeqPrefix xs (b :: bs) || tokSeqInfix xs bs

/-- FTS5 phrase semantics: the phrase's token sequence occurs
consecutively in the column's token sequence. -/
def phraseMatchDoc (p doc : List Char) : Bool :=
  tokSeqInfix (splitAlnumRuns p) (splitAlnumRuns doc)

/-- One row of the orders table as the query engine reads it, with the
eight columns the orders_fts shadow index covers (tool.py lines 853-856)
plus the id. -/
structure QRow where
  id : Int
  short_name : String
  plate : String
  person : String
  phone : String
  email : String
  damage : String
  project_status : String
  parts_status : String
deriving DecidableEq

/-- A table-level MATCH of one phrase: some indexed column matches. -/
def ftsRowMatchPhrase (p : List Char) (r : QRow) : Bool :=
  phraseMatchDoc p r.short_name.data || phraseMatchDoc p r.plate.data ||
    phraseMatchDoc p r.person.data || phraseMatchDoc p r.phone.data ||
    phraseMatchDoc p r.email.data || phraseMatchDoc p r.damage.data ||
    phraseMatchDoc p r.project_status.data ||
    phraseMatchDoc p r.parts_status.data

/-- Conjunctive MATCH semantics of the AND query. -/
def ftsRowMatch (ps : List (List Char)) (r : QRow) : Bool :=
  ps.all (fun p => ftsRowMatchPhrase p r)

/-- Model of executing SELECT rowid FROM orders_fts WHERE orders_fts
MATCH q LIMIT 200 (tool.py lines 2178-2182): a malformed query raises
OperationalError, a well-formed one returns the matching ids. -/
def ftsExecOnStore (store : List QRow) (q : List Char) :
    Except Unit (List Int) :=
  match ftsParseQuery q with
  | none => .error ()
  | some ps => .ok (((store.filter (ftsRowMatch ps)).map (·.id)).take 200)

/-- The two shapes the free-text stage of cmd_query can add to the SQL
plan: the LIKE fallback over the five text columns, or an id IN filter
from the index hits. -/
inductive FreeTextPlan where
  | likeFallback : String → FreeTextPlan
  | idFilter : List Int → FreeTextPlan
deriving DecidableEq

/-- Model of the free-text stage of cmd_query (tool.py lines 2168-2194),
parameterized by the index executor: tokenize the stripped input; with
no tokens fall back to LIKE; otherwise run the quoted conjunctive MATCH,
falling back to LIKE when it raises or returns no rows, else filter by
the returned ids. -/
def freeTextPlan (text : String)
    (exec : List Char → Except Unit (List Int)) : FreeTextPlan :=
  let raw := String.mk (pyStrip text.data)
  let tokens := tokenizeCh raw.data
  if tokens = [] then .likeFallback raw
  else
    match exec (buildFtsQuery tokens) with
    | .error _ => .likeFallback raw
    | .ok [] => .likeFallback raw
    | .ok rows => .idFilter rows

/-- SQLite LIKE with percent wildcards on both sides: ASCII
case-insensitive containment. -/
def likeContains (text pat : String) : Bool :=
  subListCh (pat.data.map pyLowerCh) (text.data.map pyLowerCh)

/-- The LIKE fallback clause of tool.py line 2188: any of short_name,
plate, person, phone, email contains the raw text. -/
def likeRowMatch (raw : String) (r : QRow) : Bool :=
  likeContains r.short_name raw || likeContains r.plate raw ||
    likeContains r.person raw || likeContains r.phone raw ||
    likeContains r.email raw

/-- Executing the free-text stage's plan against the orders table. -/
def execFreeText (store : List QRow) : FreeTextPlan → List QRow
  | .likeFallback raw => store.filter (likeRowMatch raw)
  | .idFilter ids => store.filter (fun r => ids.any (fun i => i = r.id))

/-! ## Theorems -/

theorem takeRun_length (p : Char → Bool) (cs : List Char) :
    (takeRun p cs).1.length + (takeRun p cs).2.length = cs.length := by
  induction cs with
  | nil => simp [takeRun]
  | cons c cs ih =>
      by_cases h : p c
      · simp only [takeRun, h, if_true, List.length_cons]
        omega
      · simp [takeRun, h]

theorem pyGet_append_right (d : List (String × α)) (k : String) (v : α)
    (h : pyHasKey d k = false) : pyGet (d ++ [(k, v)]) k = some v := by
  induction d with
  | nil => simp [pyGet, List.find?]
  | cons p d ih =>
      simp only [pyHasKey, List.any_cons, Bool.or_eq_false_iff] at h
      simp only [pyGet, List.cons_append, List.find?]
      rw [show (decide (p.1 = k)) = false by simpa using h.1]
      exact ih (by simpa [pyHasKey] using h.2)

theorem pyGet_append_ne (d : List (String × α)) (k k' : String) (v : α)
    (h : k' ≠ k) : pyGet (d ++ [(k, v)]) k' = pyGet d k' := by
  induction d with
  | nil => simp [pyGet, List.find?, Ne.symm h]
  | cons p d ih =>
      simp only [pyGet, List.cons_append, List.find?]
      cases hpk : (decide (p.1 = k') : Bool) with
      | true => simp
      | false => simpa [pyGet, List.find?, hpk] using ih

example : to_float_de "abc" = none := by decide
example : to_float_de "" = none := by decide

example : parse_german_date_or_datetime "16.12.2025" =
    (some "2025-12-16", none) := by decide
example : parse_german_date_or_datetime "2025-12-18" =
    (some "2025-12-18", none) := by decide
example : parse_german_date_or_datetime "31.02.2025" = (none, none) := by
  decide
example : parse_german_date_or_datetime "17.12.2025 13:03:17" =
    (some "2025-12-17", some "2025-12-17T13:03:17") := by decide
example : parse_german_date_or_datetime "active" = (none, none) := by decide

example : parse_station "4@finished" = (some 4, some "finished") := by decide
example : parse_station "2@Active" = (some 2, some "active") := by decide
example : parse_station "4@" = (none, none) := by decide
example : parse_station "active" = (none, none) := by decide

example : ohneTeileSearch "Ohne E-Teile" = true := by decide
example : missingKeywordSearch "Teile fehlen: Rückstand" = true := by decide
example : missingKeywordSearch "alles da" = false := by decide
example : missingKeywordSearch "nichts mehr da" = true := by decide

example :
    plain_fields_regex [("X", "a"), ("X", "b")] = [("X", "a")] := by decide
example :
    plain_fields_tree
      [{ label := some "X", sel := none,
         inp := some { type := "text", checked := false, value := "a" },
         ta := none },
       { label := some "X", sel := none,
         inp := some { type := "text", checked := false, value := "b" },
         ta := none }] = [("X", "b")] := by decide

example : tokenizeCh "BB-SK 2307".data = ["BB-SK".data, "2307".data] := by
  decide
example : tokenizeCh "-foo".data = ["foo".data] := by decide
example : tokenizeCh "!?".data = [] := by decide
example : tokenizeCh "a--b".data = ["a".data, "b".data] := by decide

example : ftsParseQuery "-BB".data = none := by decide
example : ftsParseQuery "\"BB-SK\" AND \"2307\"".data =
    some ["BB-SK".data, "2307".data] := by decide


theorem pyGet_eq_none (d : List (String × α)) (k : String)
    (h : pyHasKey d k = false) : pyGet d k = none := by
  induction d with
  | nil => rfl
  | cons p d ih =>
      simp only [pyHasKey, List.any_cons, Bool.or_eq_false_iff] at h
      simp only [pyGet, List.find?]
      rw [show (decide (p.1 = k)) = false by simpa using h.1]
      exact ih (by simpa [pyHasKey] using h.2)

theorem pyGet_isSome (d : List (String × α)) (k : String)
    (h : pyHasKey d k = true) : (pyGet d k).isSome = true := by
  induction d with
  | nil => simp [pyHasKey] at h
  | cons p d ih =>
      simp only [pyGet, List.find?]
      cases hpk : (decide (p.1 = k) : Bool) with
      | true => simp
      | false =>
          simp only [pyHasKey, List.any_cons, hpk, Bool.false_or] at h
          simpa [pyGet] using ih (by simpa [pyHasKey] using h)

theorem find?_map_replace_ne (d : List (String × α)) (k k' : String)
    (v : α) (h : k' ≠ k) :
    pyGet (d.map (fun p => if p.1 = k then (k, v) else p)) k' = pyGet d k' := by
  induction d with
  | nil => rfl
  | cons p d ih =>
      by_cases hp : p.1 = k
      · simp only [List.map_cons, if_pos hp]
        simp only [pyGet, List.find?]
        rw [show (decide ((k, v).1 = k')) = false by
          simpa using fun he => h he.symm]
        rw [show (decide (p.1 = k')) = false by
          simpa using fun he => h (by rw [← he, hp])]
        simpa [pyGet] using ih
      · simp only [List.map_cons, if_neg hp]
        simp only [pyGet, List.find?]
        cases hpk : (decide (p.1 = k') : Bool) with
        | true => simp
        | false => simpa [pyGet] using ih

theorem find?_map_replace_self (d : List (String × α)) (k : String)
    (v : α) :
    pyGet (d.map (fun p => if p.1 = k then (k, v) else p)) k =
      (pyGet d k).map (fun _ => v) := by
  induction d with
  | nil => rfl
  | cons p d ih =>
      by_cases hp : p.1 = k
      · simp [pyGet, List.find?, hp]
      · simp only [List.map_cons, if_neg hp]
        simp only [pyGet, List.find?]
        rw [show (decide (p.1 = k)) = false by simpa using hp]
        simpa [pyGet] using ih

theorem pyGet_pySet_self (d : List (String × α)) (k : String) (v : α) :
    pyGet (pySet d k v) k = some v := by
  unfold pySet
  cases hh : pyHasKey d k with
  | false => simpa [hh] using pyGet_append_right d k v hh
  | true =>
      simp only [hh, if_true]
      rw [find?_map_replace_self]
      have hs := pyGet_isSome d k hh
      cases hg : pyGet d k with
      | none => rw [hg] at hs; simp at hs
      | some u => simp

theorem pyGet_pySet_ne (d : List (String × α)) (k k' : String) (v : α)
    (h : k' ≠ k) : pyGet (pySet d k v) k' = pyGet d k' := by
  unfold pySet
  cases hh : pyHasKey d k with
  | false => simpa [hh] using pyGet_append_ne d k k' v h
  | true =>
      simp only [hh, if_true]
      exact find?_map_replace_ne d k k' v h

theorem missingPartsFlag_eq (ps : String) (vf : List (String × String))
    (pl : List PartRow) :
    missingPartsFlag ps vf pl =
      (pl.any (·.is_missing) ||
        (!(ohneTeileSearch (strOr ps (vfGet vf "E-Teile Status"))) &&
          missingKeywordSearch (strOr ps (vfGet vf "E-Teile Status")))) := by
  unfold missingPartsFlag
  cases hany : pl.any (·.is_missing) with
  | true =>
      have hne : pl ≠ [] := by
        intro he
        rw [he] at hany
        simp at hany
      simp [hne, hany]
  | false =>
      simp only [hany, Bool.and_false, Bool.false_or]
      by_cases h1 : ohneTeileSearch (strOr ps (vfGet vf "E-Teile Status"))
      · simp [h1]
      · by_cases h2 : missingKeywordSearch (strOr ps (vfGet vf "E-Teile Status"))
        · simp [h1, h2]
        · simp [h1, h2]

/-- C4 (amended): in build_order_row the missing-parts flag equals
"some part row is missing, or else the status string matches the
missing keywords without matching the no-parts indicator": the per-row
refinement runs last, so a missing part row forces the flag true even
when the status string says no parts are involved; the no-parts
indicator yields false only when no individual row is missing. -/
theorem missing_parts_characterization (proj : List (String × PyVal))
    (vf : List (String × String)) (ps : String) (pl : List PartRow)
    (pm : List (String × String)) (now : String) (pid : Int)
    (h : pyIntOfVal (pyGetD proj "ID" PyVal.vnone) = some pid) :
    (build_order_row proj vf ps pl pm now).map (fun r => r.missing_parts) =
      Except.ok (pl.any (·.is_missing) ||
        (!(ohneTeileSearch (strOr ps (vfGet vf "E-Teile Status"))) &&
          missingKeywordSearch (strOr ps (vfGet vf "E-Teile Status")))) := by
  unfold build_order_row
  rw [h]
  simp only [Except.map, missingPartsFlag_eq]

/-- C4 witness: a keyword-matching status with no parts list makes the
flag true via the characterization. -/
theorem missing_parts_characterization_witness :
    (build_order_row [("ID", PyVal.vint 2)] [] "Teile fehlen offen" [] []
      "t").map (fun r => r.missing_parts) = Except.ok true := by
  have h := missing_parts_characterization [("ID", PyVal.vint 2)] []
    "Teile fehlen offen" [] [] "t" 2 (by decide)
  rw [h]
  rfl

/-- C4 counterexample: the status string indicates "no parts involved"
(ohne E-Teile), yet a part row with is_missing set makes the order row's
missing-parts flag true — refuting the claim that such a status always
yields false. -/
theorem missing_parts_ohne_override_counterexample :
    ohneTeileSearch "ohne E-Teile" = true ∧
    (build_order_row [("ID", PyVal.vint 1)] [] "ohne E-Teile"
        [{ blankPart with is_missing := true }] [] "t").map
      (fun r => r.missing_parts) = Except.ok true := by
  exact ⟨by decide, rfl⟩

/-- C9 (amended): build_order_row is total on every input whose project
dict carries an integer-convertible ID; all other lookups (project keys,
field labels, parts data, metadata) default, so their absence cannot
make the mapper fail. -/
theorem build_order_row_total_with_id (proj : List (String × PyVal))
    (visual_fields : List (String × String)) (parts_status : String)
    (parts_list : List PartRow) (parts_meta : List (String × String))
    (now : String)
    (h : (pyIntOfVal (pyGetD proj "ID" PyVal.vnone)).isSome = true) :
    ∃ row, build_order_row proj visual_fields parts_status parts_list
      parts_meta now = Except.ok row := by
  cases hv : pyIntOfVal (pyGetD proj "ID" PyVal.vnone) with
  | none => rw [hv] at h; simp at h
  | some pid =>
      unfold build_order_row
      rw [hv]
      exact ⟨_, rfl⟩

/-- C9 witness: a dict carrying an integer ID builds a row. -/
theorem build_order_row_total_with_id_witness :
    ∃ row, build_order_row [("ID", PyVal.vint 7)] [] "" [] [] "t" =
      Except.ok row :=
  build_order_row_total_with_id [("ID", PyVal.vint 7)] [] "" [] [] "t"
    (by decide)

/-- C9 counterexample: with the ID key absent the mapper raises (the
int() call on line 1774 receives None), refuting the claim that every
lookup, including the project ID, has a default. -/
theorem build_order_row_missing_id_counterexample :
    build_order_row [] [] "" [] [] "2025-10-12T00:00:00" =
      Except.error "int() of proj ID raised" := rfl

theorem pyHasKey_eq_isSome (d : List (String × α)) (k : String) :
    pyHasKey d k = (pyGet d k).isSome := by
  induction d with
  | nil => rfl
  | cons p d ih =>
      by_cases hp : p.1 = k
      · simp [pyHasKey, pyGet, List.find?, List.any_cons, hp]
      · simp only [pyHasKey, pyGet, List.any_cons, List.find?]
        rw [show (decide (p.1 = k)) = false by simpa using hp]
        simpa [pyHasKey, pyGet] using ih

theorem plain_fields_regex_aux (ms : List (String × String))
    (out : List (String × String)) (l : String) (hl : l ≠ "") :
    pyGet (ms.foldl (fun out m =>
        if m.1 ≠ "" then pySetIfAbsent out m.1 m.2 else out) out) l =
      (match pyGet out l with
       | some v => some v
       | none => (ms.find? (fun m => decide (m.1 = l))).map (·.2)) := by
  induction ms generalizing out with
  | nil => cases hg : pyGet out l <;> simp [hg]
  | cons m ms ih =>
      simp only [List.foldl_cons, List.find?]
      by_cases hm : m.1 = ""
      · rw [if_neg (not_not_intro hm)]
        rw [ih out]
        rw [show (decide (m.1 = l)) = false by
          simpa using fun (he : m.1 = l) => hl (he ▸ hm)]
      · rw [if_pos hm, ih (pySetIfAbsent out m.1 m.2)]
        by_cases hh : pyHasKey out m.1
        · rw [show pySetIfAbsent out m.1 m.2 = out from by
            simp [pySetIfAbsent, hh]]
          cases hg : pyGet out l with
          | some v => simp
          | none =>
              have hml : ¬ m.1 = l := by
                intro he
                have hs := pyGet_isSome out m.1 hh
                rw [he, hg] at hs
                simp at hs
              rw [show (decide (m.1 = l)) = false by simpa using hml]
        · have hh' : pyHasKey out m.1 = false := by simpa using hh
          rw [show pySetIfAbsent out m.1 m.2 = out ++ [(m.1, m.2)] from by
            simp [pySetIfAbsent, hh']]
          by_cases hml : m.1 = l
          · subst hml
            rw [pyGet_append_right out m.1 m.2 hh']
            rw [pyGet_eq_none out m.1 hh']
            simp
          · rw [pyGet_append_ne out m.1 l m.2 (fun he => hml he.symm)]
            rw [show (decide (m.1 = l)) = false by simpa using hml]

theorem plain_fields_tree_aux (fs : List FieldDiv)
    (out : List (String × String)) (l : String) (hl : l ≠ "") :
    pyGet (fs.foldl (fun out f =>
        match f.label with
        | none => out
        | some lb => if lb = "" then out else pySet out lb (fieldDivValue f))
      out) l =
      (match fs.reverse.find? (fun f => decide (f.label = some l)) with
       | some f => some (fieldDivValue f)
       | none => pyGet out l) := by
  induction fs generalizing out with
  | nil => simp
  | cons f fs ih =>
      cases hlb : f.label with
      | none =>
          simp only [List.foldl_cons, List.reverse_cons, List.find?_append,
            hlb]
          rw [ih out]
          rw [show (List.find? (fun f => decide (f.label = some l)) [f]) =
            none from by simp [List.find?, hlb]]
          cases fs.reverse.find? (fun f => decide (f.label = some l)) <;> simp
      | some lb =>
          simp only [List.foldl_cons, List.reverse_cons, List.find?_append,
            hlb]
          by_cases he : lb = ""
          · rw [if_pos he, ih out]
            rw [show (List.find? (fun f => decide (f.label = some l)) [f]) =
              none from by
                simp only [List.find?, hlb]
                rw [show (decide (some lb = some l)) = false by
                  simpa using fun hc => hl (by rw [← hc, he])]]
            cases fs.reverse.find? (fun f => decide (f.label = some l)) <;> simp
          · rw [if_neg he, ih (pySet out lb (fieldDivValue f))]
            cases hr : fs.reverse.find? (fun f => decide (f.label = some l)) with
            | some g => simp
            | none =>
                by_cases hml : lb = l
                · subst hml
                  rw [show (List.find? (fun f => decide (f.label = some lb)) [f]) =
                    some f from by simp [List.find?, hlb]]
                  simp [pyGet_pySet_self]
                · rw [show (List.find? (fun f => decide (f.label = some l)) [f]) =
                    none from by
                      simp only [List.find?, hlb]
                      rw [show (decide (some lb = some l)) = false by
                        simpa using hml]]
                  simp only [Option.none_or]
                  exact pyGet_pySet_ne out lb l _ (fun he2 => hml he2.symm)

theorem firstNE_fold_aux {α : Type} (key val : α → String) (ms : List α)
    (out : List (String × String)) (l : String) (hl : l ≠ "") :
    pyGet (ms.foldl (fun out m =>
        if key m = "" ∨ pyHasKey out (key m) then out
        else if val m ≠ "" then out ++ [(key m, val m)] else out) out) l =
      (match pyGet out l with
       | some v => some v
       | none =>
           ((ms.filter (fun m => decide (val m ≠ ""))).find?
             (fun m => decide (key m = l))).map val) := by
  induction ms generalizing out with
  | nil => cases hg : pyGet out l <;> simp [hg]
  | cons m ms ih =>
      simp only [List.foldl_cons, List.filter_cons]
      by_cases hv : val m = ""
      · rw [show (decide (val m ≠ "")) = false by simpa using hv]
        by_cases hk : key m = "" ∨ pyHasKey out (key m)
        · rw [if_pos hk, ih out]
          simp
        · rw [if_neg hk, if_neg (by simpa using hv), ih out]
          simp
      · rw [show (decide (val m ≠ "")) = true by simpa using hv]
        simp only [List.find?, if_pos rfl]
        by_cases hk : key m = "" ∨ pyHasKey out (key m)
        · rw [if_pos hk, ih out]
          cases hg : pyGet out l with
          | some v => simp
          | none =>
              have hml : ¬ key m = l := by
                intro he
                rcases hk with hk | hk
                · exact hl (he ▸ hk)
                · have hs := pyGet_isSome out (key m) hk
                  rw [he, hg] at hs
                  simp at hs
              rw [show (decide (key m = l)) = false by simpa using hml]
        · rw [if_neg hk, if_pos (by simpa using hv)]
          push_neg at hk
          have hh' : pyHasKey out (key m) = false := by simpa using hk.2
          rw [ih (out ++ [(key m, val m)])]
          by_cases hml : key m = l
          · rw [← hml]
            rw [pyGet_append_right out (key m) (val m) hh']
            rw [pyGet_eq_none out (key m) hh']
            simp
          · rw [pyGet_append_ne out (key m) l (val m) (fun he => hml he.symm)]
            rw [show (decide (key m = l)) = false by simpa using hml]

/-- C5 (amended): label collisions are handled differently by the four
extractors.  The regex branch of parse_visual_forms_plain_fields keeps
the value of the first occurrence of a label; the two branches of
_parse_html_label_value_pairs keep the first occurrence that yields a
nonempty value; but the tree branch of parse_visual_forms_plain_fields
assigns unconditionally, so the LAST occurrence of a duplicated label
wins there. -/
theorem label_collision_semantics :
    (∀ (ms : List (String × String)) (l : String), l ≠ "" →
      pyGet (plain_fields_regex ms) l =
        (ms.find? (fun m => decide (m.1 = l))).map (·.2)) ∧
    (∀ (fs : List FieldDiv) (l : String), l ≠ "" →
      pyGet (plain_fields_tree fs) l =
        (fs.reverse.find? (fun f => decide (f.label = some l))).map
          fieldDivValue) ∧
    (∀ (ms : List (String × AfterWindow)) (l : String), l ≠ "" →
      pyGet (label_value_pairs_regex ms) l =
        ((ms.filter (fun m => decide (afterWindowValue m.2 ≠ ""))).find?
          (fun m => decide (m.1 = l))).map (fun m => afterWindowValue m.2)) ∧
    (∀ (ls : List LabelNode) (l : String), l ≠ "" →
      pyGet (label_value_pairs_tree ls) l =
        ((ls.filter (fun lb => decide (labelNodeValue lb ≠ ""))).find?
          (fun lb => decide (lb.label = l))).map labelNodeValue) := by
  refine ⟨?_, ?_, ?_, ?_⟩
  · intro ms l hl
    have h := plain_fields_regex_aux ms [] l hl
    simpa [plain_fields_regex, pyGet, List.find?] using h
  · intro fs l hl
    have h := plain_fields_tree_aux fs [] l hl
    have h2 : pyGet ([] : List (String × String)) l = none := rfl
    rw [h2] at h
    rw [show plain_fields_tree fs = fs.foldl (fun out f =>
        match f.label with
        | none => out
        | some lb => if lb = "" then out else pySet out lb (fieldDivValue f))
      [] from rfl]
    rw [h]
    cases fs.reverse.find? (fun f => decide (f.label = some l)) <;> simp
  · intro ms l hl
    have h := firstNE_fold_aux (fun m => m.1)
      (fun m => afterWindowValue m.2) ms [] l hl
    simpa [label_value_pairs_regex, pyGet, List.find?] using h
  · intro ls l hl
    have h := firstNE_fold_aux (fun lb => lb.label) labelNodeValue ls [] l hl
    have hsame : label_value_pairs_tree ls = ls.foldl (fun out lb =>
        if lb.label = "" ∨ pyHasKey out lb.label then out
        else if labelNodeValue lb ≠ "" then out ++ [(lb.label, labelNodeValue lb)]
        else out) [] := by
      unfold label_value_pairs_tree
      refine List.foldl_ext _ _ [] (fun out lb _ => ?_)
      by_cases hk : lb.label = "" ∨ pyHasKey out lb.label
      · rw [if_pos hk, if_pos hk]
      · rw [if_neg hk, if_neg hk]
        cases hc : lb.ctrl with
        | none =>
            rw [show labelNodeValue lb = "" from by
              simp [labelNodeValue, hc]]
            simp
        | some c =>
            rw [show labelNodeValue lb = value_from_control c from by
              simp [labelNodeValue, hc]]
    rw [hsame, h]
    rfl

/-- C5 witness: the regex extractor keeps the first value of a
duplicated label. -/
theorem label_collision_semantics_witness :
    pyGet (plain_fields_regex [("K", "v1"), ("K", "v2")]) "K" = some "v1" := by
  have h := label_collision_semantics.1 [("K", "v1"), ("K", "v2")] "K"
    (by decide)
  rw [h]
  rfl

/-- C5 counterexample: a fragment whose field divs carry the same label
twice makes the tree-based parse_visual_forms_plain_fields keep the
value of the second (last) occurrence, not the first — refuting the
claim that both extractors keep the first occurrence. -/
theorem plain_fields_tree_last_wins_counterexample :
    pyGet (plain_fields_tree
      [{ label := some "X", sel := none,
         inp := some { type := "text", checked := false, value := "a" },
         ta := none },
       { label := some "X", sel := none,
         inp := some { type := "text", checked := false, value := "b" },
         ta := none }]) "X" = some "b" ∧ ("b" : String) ≠ "a" := by
  exact ⟨rfl, by decide⟩

theorem dedupFirst_aux (ps acc : List PartRow) (k : String × String) :
    (ps.foldl (fun acc p =>
      if acc.any (fun q => decide (partKey q = partKey p)) then acc
      else acc ++ [p]) acc).find? (fun q => decide (partKey q = k)) =
    (match acc.find? (fun q => decide (partKey q = k)) with
     | some q => some q
     | none => ps.find? (fun q => decide (partKey q = k))) := by
  induction ps generalizing acc with
  | nil => cases hg : acc.find? (fun q => decide (partKey q = k)) <;> simp [hg]
  | cons p ps ih =>
      simp only [List.foldl_cons, List.find?]
      cases ha : acc.any (fun q => decide (partKey q = partKey p)) with
      | true =>
          rw [if_pos (by simp [ha]), ih acc]
          cases hg : acc.find? (fun q => decide (partKey q = k)) with
          | some q => simp
          | none =>
              have hpk : ¬ partKey p = k := by
                intro he
                obtain ⟨q, hq, hqe⟩ := List.any_eq_true.mp ha
                have : acc.find? (fun q => decide (partKey q = k)) ≠ none := by
                  apply Option.isSome_iff_ne_none.mp
                  apply List.find?_isSome.mpr
                  exact ⟨q, hq, by simp only [decide_eq_true_eq] at hqe ⊢
                                   rw [hqe, he]⟩
                exact this hg
              rw [show (decide (partKey p = k)) = false by simpa using hpk]
      | false =>
          rw [if_neg (by simp [ha]), ih (acc ++ [p])]
          rw [List.find?_append]
          cases hg : acc.find? (fun q => decide (partKey q = k)) with
          | some q => simp
          | none =>
              by_cases hpk : partKey p = k
              · rw [show (decide (partKey p = k)) = true by simpa using hpk]
                simp [List.find?, hpk]
              · rw [show (decide (partKey p = k)) = false by simpa using hpk]
                simp only [Option.none_or]
                rw [show (List.find? (fun q => decide (partKey q = k)) [p]) =
                  none from by simp [List.find?, hpk]]

theorem find?_dictReplace (acc : List PartRow) (p : PartRow)
    (k : String × String) :
    (acc.map (fun q => if partKey q = partKey p then p else q)).find?
      (fun q => decide (partKey q = k)) =
    (if partKey p = k then
      (acc.find? (fun q => decide (partKey q = k))).map (fun _ => p)
     else acc.find? (fun q => decide (partKey q = k))) := by
  induction acc with
  | nil => by_cases hpk : partKey p = k <;> simp [hpk]
  | cons q acc ih =>
      simp only [List.map_cons, List.find?]
      by_cases hq : partKey q = partKey p
      · simp only [if_pos hq]
        by_cases hpk : partKey p = k
        · rw [if_pos hpk]
          rw [show (decide (partKey q = k)) = true by
            simp only [decide_eq_true_eq]; rw [hq, hpk]]
          simp only [List.find?]
          rw [show (decide (partKey p = k)) = true by simpa using hpk]
          simp
        · rw [if_neg hpk]
          rw [show (decide (partKey q = k)) = false by
            simp only [decide_eq_false_iff_not]
            intro he; exact hpk (by rw [← hq, he])]
          simp only [List.find?]
          rw [show (decide (partKey p = k)) = false by simpa using hpk]
          simpa [if_neg hpk] using ih
      · simp only [if_neg hq]
        by_cases hqk : partKey q = k
        · have hpk : ¬ partKey p = k := by
            intro he; exact hq (by rw [hqk, he])
          rw [if_neg hpk]
          rw [show (decide (partKey q = k)) = true by simpa using hqk]
        · rw [show (decide (partKey q = k)) = false by simpa using hqk]
          by_cases hpk : partKey p = k
          · rw [if_pos hpk]
            simpa [if_pos hpk] using ih
          · rw [if_neg hpk]
            simpa [if_neg hpk] using ih

theorem dedupDict_aux (ps acc : List PartRow) (k : String × String) :
    (ps.foldl (fun acc p =>
      if acc.any (fun q => decide (partKey q = partKey p)) then
        acc.map (fun q => if partKey q = partKey p then p else q)
      else acc ++ [p]) acc).find? (fun q => decide (partKey q = k)) =
    (match ps.reverse.find? (fun q => decide (partKey q = k)) with
     | some q => some q
     | none => acc.find? (fun q => decide (partKey q = k))) := by
  induction ps generalizing acc with
  | nil => cases hg : acc.find? (fun q => decide (partKey q = k)) <;> simp [hg]
  | cons p ps ih =>
      simp only [List.foldl_cons, List.reverse_cons, List.find?_append]
      cases ha : acc.any (fun q => decide (partKey q = partKey p)) with
      | true =>
          rw [if_pos (by simp [ha])]
          rw [ih (acc.map (fun q => if partKey q = partKey p then p else q))]
          cases hr : ps.reverse.find? (fun q => decide (partKey q = k)) with
          | some q => simp
          | none =>
              rw [find?_dictReplace]
              by_cases hpk : partKey p = k
              · rw [if_pos hpk]
                rw [show (List.find? (fun q => decide (partKey q = k)) [p]) =
                  some p from by simp [List.find?, hpk]]
                obtain ⟨q, hq, hqe⟩ := List.any_eq_true.mp ha
                have hs : (acc.find? (fun q => decide (partKey q = k))).isSome := by
                  apply List.find?_isSome.mpr
                  exact ⟨q, hq, by simp only [decide_eq_true_eq] at hqe ⊢
                                   rw [hqe, hpk]⟩
                cases hg : acc.find? (fun q => decide (partKey q = k)) with
                | some u => simp
                | none => rw [hg] at hs; simp at hs
              · rw [if_neg hpk]
                rw [show (List.find? (fun q => decide (partKey q = k)) [p]) =
                  none from by simp [List.find?, hpk]]
                simp
      | false =>
          rw [if_neg (by simp [ha]), ih (acc ++ [p]), List.find?_append]
          cases hr : ps.reverse.find? (fun q => decide (partKey q = k)) with
          | some q => simp
          | none =>
              by_cases hpk : partKey p = k
              · rw [show (List.find? (fun q => decide (partKey q = k)) [p]) =
                  some p from by simp [List.find?, hpk]]
                have hg : acc.find? (fun q => decide (partKey q = k)) = none := by
                  apply List.find?_eq_none.mpr
                  intro q hq
                  simp only [decide_eq_true_eq]
                  intro he
                  have hmem : acc.any
                      (fun q => decide (partKey q = partKey p)) = true := by
                    apply List.any_eq_true.mpr
                    exact ⟨q, hq, by
                      simp only [decide_eq_true_eq]
                      exact he.trans hpk.symm⟩
                  rw [ha] at hmem
                  exact absurd hmem (by simp)
                rw [hg]
                simp
              · rw [show (List.find? (fun q => decide (partKey q = k)) [p]) =
                  none from by simp [List.find?, hpk]]
                simp

theorem filter_length_map_replace (acc : List PartRow) (p : PartRow)
    (k : String × String) :
    ((acc.map (fun q => if partKey q = partKey p then p else q)).filter
      (fun q => decide (partKey q = k))).length =
    (acc.filter (fun q => decide (partKey q = k))).length := by
  induction acc with
  | nil => rfl
  | cons q acc ih =>
      simp only [List.map_cons, List.filter_cons]
      by_cases hq : partKey q = partKey p
      · simp only [if_pos hq]
        rw [show (decide (partKey p = k)) = (decide (partKey q = k)) from by
          rw [hq]]
        cases decide (partKey q = k) <;> simp [ih]
      · simp only [if_neg hq]
        cases decide (partKey q = k) <;> simp [ih]

theorem dedupFirst_unique (ps acc : List PartRow) (k : String × String)
    (hacc : (acc.filter (fun q => decide (partKey q = k))).length ≤ 1) :
    ((ps.foldl (fun acc p =>
      if acc.any (fun q => decide (partKey q = partKey p)) then acc
      else acc ++ [p]) acc).filter
        (fun q => decide (partKey q = k))).length ≤ 1 := by
  induction ps generalizing acc with
  | nil => exact hacc
  | cons p ps ih =>
      simp only [List.foldl_cons]
      cases ha : acc.any (fun q => decide (partKey q = partKey p)) with
      | true =>
          rw [if_pos (by simp [ha])]
          exact ih acc hacc
      | false =>
          rw [if_neg (by simp [ha])]
          apply ih
          rw [List.filter_append]
          by_cases hpk : partKey p = k
          · have h0 : acc.filter (fun q => decide (partKey q = k)) = [] := by
              apply List.filter_eq_nil_iff.mpr
              intro q hq
              simp only [decide_eq_true_eq]
              intro he
              have hmem : acc.any
                  (fun q => decide (partKey q = partKey p)) = true :=
                List.any_eq_true.mpr ⟨q, hq, by
                  simp only [decide_eq_true_eq]
                  exact he.trans hpk.symm⟩
              rw [ha] at hmem
              exact absurd hmem (by simp)
            rw [h0]
            simp [List.filter_cons, hpk]
          · have h1 : List.filter (fun q => decide (partKey q = k)) [p] = [] := by
              simp [List.filter_cons, hpk]
            rw [h1]
            simpa using hacc

theorem dedupDict_unique (ps acc : List PartRow) (k : String × String)
    (hacc : (acc.filter (fun q => decide (partKey q = k))).length ≤ 1) :
    ((ps.foldl (fun acc p =>
      if acc.any (fun q => decide (partKey q = partKey p)) then
        acc.map (fun q => if partKey q = partKey p then p else q)
      else acc ++ [p]) acc).filter
        (fun q => decide (partKey q = k))).length ≤ 1 := by
  induction ps generalizing acc with
  | nil => exact hacc
  | cons p ps ih =>
      simp only [List.foldl_cons]
      cases ha : acc.any (fun q => decide (partKey q = partKey p)) with
      | true =>
          rw [if_pos (by simp [ha])]
          apply ih
          rw [filter_length_map_replace]
          exact hacc
      | false =>
          rw [if_neg (by simp [ha])]
          apply ih
          rw [List.filter_append]
          by_cases hpk : partKey p = k
          · have h0 : acc.filter (fun q => decide (partKey q = k)) = [] := by
              apply List.filter_eq_nil_iff.mpr
              intro q hq
              simp only [decide_eq_true_eq]
              intro he
              have hmem : acc.any
                  (fun q => decide (partKey q = partKey p)) = true :=
                List.any_eq_true.mpr ⟨q, hq, by
                  simp only [decide_eq_true_eq]
                  exact he.trans hpk.symm⟩
              rw [ha] at hmem
              exact absurd hmem (by simp)
            rw [h0]
            simp [List.filter_cons, hpk]
          · have h1 : List.filter (fun q => decide (partKey q = k)) [p] = [] := by
              simp [List.filter_cons, hpk]
            rw [h1]
            simpa using hacc

/-- C6 (amended): every extraction path of the parts sub-parser returns
at most one row per (part number, description) pair; on the parts-table
path the retained row is the FIRST occurrence; on the generic-table and
bare data-attribute fallback paths the dict comprehension of line 1476
retains the LAST occurrence instead. -/
theorem parts_dedup_characterization :
    (∀ (p1 p2 p3 : List PartRow) (k : String × String),
      ((parse_parts_dedup p1 p2 p3).filter
        (fun q => decide (partKey q = k))).length ≤ 1) ∧
    (∀ (p1 p2 p3 : List PartRow) (k : String × String), p1 ≠ [] →
      (parse_parts_dedup p1 p2 p3).find? (fun q => decide (partKey q = k)) =
        p1.find? (fun q => decide (partKey q = k))) ∧
    (∀ (p2 p3 : List PartRow) (k : String × String), p2 ≠ [] →
      (parse_parts_dedup [] p2 p3).find? (fun q => decide (partKey q = k)) =
        p2.reverse.find? (fun q => decide (partKey q = k))) ∧
    (∀ (p3 : List PartRow) (k : String × String),
      (parse_parts_dedup [] [] p3).find? (fun q => decide (partKey q = k)) =
        p3.reverse.find? (fun q => decide (partKey q = k))) := by
  refine ⟨?_, ?_, ?_, ?_⟩
  · intro p1 p2 p3 k
    unfold parse_parts_dedup
    by_cases h1 : p1 = []
    · rw [if_neg (not_not_intro h1)]
      dsimp only
      by_cases h2 : p2 = []
      · rw [if_pos h2]
        exact dedupDict_unique p3 [] k (by simp)
      · rw [if_neg h2]
        exact dedupDict_unique p2 [] k (by simp)
    · rw [if_pos h1]
      exact dedupFirst_unique p1 [] k (by simp)
  · intro p1 p2 p3 k h1
    unfold parse_parts_dedup
    rw [if_pos h1]
    have h := dedupFirst_aux p1 [] k
    simpa [dedupFirstByKey, List.find?] using h
  · intro p2 p3 k h2
    unfold parse_parts_dedup
    rw [if_neg (not_not_intro rfl)]
    dsimp only
    rw [if_neg h2]
    have h := dedupDict_aux p2 [] k
    unfold dedupDictByKey
    rw [h]
    cases p2.reverse.find? (fun q => decide (partKey q = k)) <;> simp
  · intro p3 k
    unfold parse_parts_dedup
    rw [if_neg (not_not_intro rfl)]
    dsimp only
    rw [if_pos rfl]
    have h := dedupDict_aux p3 [] k
    unfold dedupDictByKey
    rw [h]
    cases p3.reverse.find? (fun q => decide (partKey q = k)) <;> simp

/-- C6 witness: on the parts-table path a duplicated key keeps the first
row. -/
theorem parts_dedup_characterization_witness :
    (parse_parts_dedup
      [{ blankPart with part_no := "P", status := "first" },
       { blankPart with part_no := "P", status := "second" }] [] []).find?
      (fun q => decide (partKey q = ("P", ""))) =
      some { blankPart with part_no := "P", status := "first" } := by
  have h := parts_dedup_characterization.2.1
    [{ blankPart with part_no := "P", status := "first" },
     { blankPart with part_no := "P", status := "second" }] [] []
    ("P", "") (by decide)
  rw [h]
  rfl

/-- C6 counterexample: on the generic-table fallback path two rows with
the same (part number, description) collapse to the LAST occurrence, not
the first — refuting the first-occurrence claim for every path. -/
theorem parts_dedup_fallback_counterexample :
    parse_parts_dedup []
      [{ blankPart with part_no := "P", status := "first" },
       { blankPart with part_no := "P", status := "second" }] [] =
      [{ blankPart with part_no := "P", status := "second" }] ∧
    ({ blankPart with part_no := "P", status := "first" } : PartRow) ≠
      { blankPart with part_no := "P", status := "second" } := by
  exact ⟨rfl, by decide⟩

theorem isDigitCh_ne (x : Char) (hx : isDigitCh x = true) (c : Char)
    (hc : isDigitCh c = false) : x ≠ c := by
  intro he
  rw [he, hc] at hx
  cases hx

theorem splitAtFirst_of_all_not (p : Char → Bool) (cs : List Char)
    (h : cs.all (fun c => !(p c)) = true) : splitAtFirst p cs = (cs, none) := by
  induction cs with
  | nil => rfl
  | cons c cs ih =>
      simp only [List.all_cons, Bool.and_eq_true, Bool.not_eq_true'] at h
      simp only [splitAtFirst, h.1, Bool.false_eq_true, if_false]
      rw [ih (by simpa using h.2)]

theorem splitAtFirst_append (p : Char → Bool) (xs : List Char) (y : Char)
    (ys : List Char) (hxs : xs.all (fun c => !(p c)) = true)
    (hy : p y = true) : splitAtFirst p (xs ++ y :: ys) = (xs, some ys) := by
  induction xs with
  | nil => simp [splitAtFirst, hy]
  | cons x xs ih =>
      simp only [List.all_cons, Bool.and_eq_true, Bool.not_eq_true'] at hxs
      simp only [List.cons_append, splitAtFirst, hxs.1, Bool.false_eq_true,
        if_false, List.append_eq]
      rw [ih (by simpa using hxs.2)]

theorem stripSign_no_sign (cs : List Char)
    (h : ∀ c, cs.head? = some c → c ≠ '+' ∧ c ≠ '-') :
    stripSign cs = (false, cs) := by
  cases cs with
  | nil => rfl
  | cons c cs =>
      obtain ⟨h1, h2⟩ := h c rfl
      simp [stripSign, h1, h2]

theorem mem_splitAtFirst (p : Char → Bool) (cs : List Char) (ch : Char)
    (hm : ch ∈ cs) (hp : p ch = false) :
    ch ∈ (splitAtFirst p cs).1 ∨
      (∃ rs, (splitAtFirst p cs).2 = some rs ∧ ch ∈ rs) := by
  induction cs with
  | nil => cases hm
  | cons c cs ih =>
      by_cases hc : p c
      · simp only [splitAtFirst, hc, if_true]
        rcases List.mem_cons.mp hm with rfl | hm'
        · rw [hc] at hp; cases hp
        · exact Or.inr ⟨cs, rfl, hm'⟩
      · simp only [splitAtFirst, hc, if_false]
        rcases List.mem_cons.mp hm with rfl | hm'
        · exact Or.inl (List.mem_cons_self _ _)
        · rcases ih hm' with h1 | ⟨rs, hrs, h2⟩
          · exact Or.inl (List.mem_cons_of_mem _ h1)
          · exact Or.inr ⟨rs, hrs, h2⟩

theorem mem_stripSign (cs : List Char) (ch : Char) (hm : ch ∈ cs)
    (h1 : ch ≠ '+') (h2 : ch ≠ '-') : ch ∈ (stripSign cs).2 := by
  cases cs with
  | nil => cases hm
  | cons c cs =>
      by_cases hcp : c = '+'
      · simp only [stripSign, hcp, if_true]
        rcases List.mem_cons.mp hm with rfl | hm'
        · exact absurd hcp h1
        · exact hm'
      · by_cases hcm : c = '-'
        · simp only [stripSign, hcp, if_false, hcm, if_true]
          rcases List.mem_cons.mp hm with rfl | hm'
          · exact absurd hcm h2
          · exact hm'
        · simpa [stripSign, hcp, hcm] using hm

theorem mem_dropWhile (p : Char → Bool) (cs : List Char) (ch : Char)
    (hm : ch ∈ cs) (hp : p ch = false) : ch ∈ cs.dropWhile p := by
  induction cs with
  | nil => cases hm
  | cons c cs ih =>
      by_cases hc : p c
      · simp only [List.dropWhile_cons, hc, if_true]
        rcases List.mem_cons.mp hm with rfl | hm'
        · rw [hc] at hp; cases hp
        · exact ih hm'
      · simpa [List.dropWhile_cons, hc] using hm

theorem mem_pyStrip (cs : List Char) (ch : Char) (hm : ch ∈ cs)
    (hsp : isSpaceCh ch = false) : ch ∈ pyStrip cs := by
  unfold pyStrip
  rw [List.mem_reverse]
  apply mem_dropWhile _ _ _ _ hsp
  rw [List.mem_reverse]
  exact mem_dropWhile _ _ _ hm hsp

theorem dropWhile_all_not (p : Char → Bool) (cs : List Char)
    (h : cs.all (fun c => !(p c)) = true) : cs.dropWhile p = cs := by
  cases cs with
  | nil => rfl
  | cons c cs =>
      simp only [List.all_cons, Bool.and_eq_true, Bool.not_eq_true'] at h
      simp [List.dropWhile_cons, h.1]

theorem pyStrip_of_no_space (cs : List Char)
    (h : cs.all (fun c => !(isSpaceCh c)) = true) : pyStrip cs = cs := by
  unfold pyStrip
  rw [dropWhile_all_not _ _ h]
  rw [dropWhile_all_not _ _ (by simpa using h)]
  exact List.reverse_reverse cs

theorem deTransform_append (xs ys : List Char) :
    deTransform (xs ++ ys) = deTransform xs ++ deTransform ys := by
  unfold deTransform
  exact List.filterMap_append xs ys _

theorem deTransform_digit_dot (cs : List Char)
    (h : cs.all (fun c => isDigitCh c || decide (c = '.')) = true) :
    deTransform cs = cs.filter isDigitCh := by
  induction cs with
  | nil => rfl
  | cons c cs ih =>
      simp only [List.all_cons, Bool.and_eq_true] at h
      rcases Bool.or_eq_true_iff.mp h.1 with hd | hdot
      · have hne : ¬ c = '.' := isDigitCh_ne c hd '.' (by decide)
        have hne2 : ¬ c = ',' := isDigitCh_ne c hd ',' (by decide)
        simp only [deTransform, List.filterMap_cons, List.filter_cons,
          if_neg hne, hne2, if_false, hd, if_true]
        rw [show cs.filterMap (fun c => if c = '.' then none else
          some (if c = ',' then '.' else c)) = deTransform cs from rfl]
        rw [ih h.2]
      · have hc : c = '.' := by simpa using hdot
        simp only [deTransform, List.filterMap_cons, hc, if_pos rfl]
        rw [show cs.filterMap (fun c => if c = '.' then none else
          some (if c = ',' then '.' else c)) = deTransform cs from rfl]
        rw [ih h.2]
        simp [List.filter_cons, isDigitCh]

theorem deTransform_comma_cons (cs : List Char) :
    deTransform (',' :: cs) = '.' :: deTransform cs := by
  simp [deTransform, List.filterMap_cons]

theorem mem_deTransform (cs : List Char) (ch : Char) (hm : ch ∈ cs)
    (h1 : ch ≠ '.') (h2 : ch ≠ ',') : ch ∈ deTransform cs := by
  unfold deTransform
  apply List.mem_filterMap.mpr
  exact ⟨ch, hm, by simp [h1, h2]⟩

theorem pyFloatNum_digits_dot (d c : List Char) (hd : d ≠ [])
    (hda : d.all isDigitCh = true) (hca : c.all isDigitCh = true) :
    pyFloatNum (d ++ '.' :: c) =
      some ((natOfDigits d : ℚ) + (natOfDigits c : ℚ) / (10 : ℚ) ^ c.length) := by
  have hnoe : (d ++ '.' :: c).all
      (fun x => !(decide (x = 'e') || decide (x = 'E'))) = true := by
    apply List.all_eq_true.mpr
    intro x hx
    rcases List.mem_append.mp hx with hx | hx
    · have hxd := List.all_eq_true.mp hda x hx
      simp [isDigitCh_ne x hxd 'e' (by decide),
        isDigitCh_ne x hxd 'E' (by decide)]
    · rcases List.mem_cons.mp hx with rfl | hx
      · decide
      · have hxd := List.all_eq_true.mp hca x hx
        simp [isDigitCh_ne x hxd 'e' (by decide),
          isDigitCh_ne x hxd 'E' (by decide)]
  have hnodot : d.all (fun x => !(decide (x = '.'))) = true := by
    apply List.all_eq_true.mpr
    intro x hx
    have hxd := List.all_eq_true.mp hda x hx
    simp [isDigitCh_ne x hxd '.' (by decide)]
  unfold pyFloatNum
  dsimp only
  rw [splitAtFirst_of_all_not _ _ hnoe]
  rw [show ((d ++ '.' :: c, (none : Option (List Char)))).1 = d ++ '.' :: c
    from rfl]
  rw [stripSign_no_sign (d ++ '.' :: c) (by
    intro x hx
    cases d with
    | nil => exact absurd rfl hd
    | cons d0 d' =>
        have hxe : d0 = x := by
          simpa using hx
        have hxd : isDigitCh x = true := by
          have hh := List.all_eq_true.mp hda d0 (List.mem_cons_self _ _)
          rwa [hxe] at hh
        exact ⟨isDigitCh_ne x hxd '+' (by decide),
          isDigitCh_ne x hxd '-' (by decide)⟩)]
  rw [show ((false, d ++ '.' :: c)).2 = d ++ '.' :: c from rfl]
  rw [splitAtFirst_append _ d '.' c hnodot (by decide)]
  unfold mantissaVal
  rw [if_pos ⟨hda, by simpa using hca, Or.inl hd⟩]
  simp

theorem pyFloatNum_none_of_bad (cs : List Char) (ch : Char) (hm : ch ∈ cs)
    (hdg : isDigitCh ch = false) (h1 : ch ≠ '.') (h2 : ch ≠ '+')
    (h3 : ch ≠ '-') (h4 : ch ≠ 'e') (h5 : ch ≠ 'E') :
    pyFloatNum cs = none := by
  unfold pyFloatNum
  dsimp only
  have hpe : (decide (ch = 'e') || decide (ch = 'E')) = false := by
    simp [h4, h5]
  rcases mem_splitAtFirst (fun c => decide (c = 'e') || decide (c = 'E'))
      cs ch hm hpe with hm1 | ⟨rs, hrs, hm2⟩
  · have hm2 := mem_stripSign _ ch hm1 h2 h3
    have hpd : (decide (ch = '.')) = false := by simp [h1]
    rcases mem_splitAtFirst (fun c => decide (c = '.')) _ ch hm2 hpd
        with hm3 | ⟨rs2, hrs2, hm4⟩
    · rw [show mantissaVal (splitAtFirst (fun c => decide (c = '.'))
          (stripSign (splitAtFirst (fun c => decide (c = 'e') ||
            decide (c = 'E')) cs).1).2).1
          ((splitAtFirst (fun c => decide (c = '.'))
            (stripSign (splitAtFirst (fun c => decide (c = 'e') ||
              decide (c = 'E')) cs).1).2).2.getD []) = none from by
        unfold mantissaVal
        rw [if_neg]
        intro hcon
        have := List.all_eq_true.mp hcon.1 ch hm3
        rw [hdg] at this
        cases this]
    · rw [show mantissaVal (splitAtFirst (fun c => decide (c = '.'))
          (stripSign (splitAtFirst (fun c => decide (c = 'e') ||
            decide (c = 'E')) cs).1).2).1
          ((splitAtFirst (fun c => decide (c = '.'))
            (stripSign (splitAtFirst (fun c => decide (c = 'e') ||
              decide (c = 'E')) cs).1).2).2.getD []) = none from by
        unfold mantissaVal
        rw [if_neg]
        intro hcon
        have := List.all_eq_true.mp hcon.2.1 ch (by rw [hrs2]; exact hm4)
        rw [hdg] at this
        cases this]
  · cases hmv : mantissaVal (splitAtFirst (fun c => decide (c = '.'))
        (stripSign (splitAtFirst (fun c => decide (c = 'e') ||
          decide (c = 'E')) cs).1).2).1
        ((splitAtFirst (fun c => decide (c = '.'))
          (stripSign (splitAtFirst (fun c => decide (c = 'e') ||
            decide (c = 'E')) cs).1).2).2.getD []) with
    | none => rfl
    | some m =>
        rw [hrs]
        dsimp only
        rw [if_neg]
        intro hcon
        have hmem := mem_stripSign rs ch hm2 h2 h3
        have := List.all_eq_true.mp hcon.2 ch hmem
        rw [hdg] at this
        cases this

theorem deUnderscoreA_no_underscore (cs : List Char) :
    ∀ prev : Option Char, (∀ x ∈ cs, ¬ x = '_') →
      deUnderscoreA prev cs = some cs := by
  induction cs with
  | nil => intro prev _; rfl
  | cons c cs ih =>
      intro prev h
      have hc := h c (List.mem_cons_self c cs)
      rw [deUnderscoreA.eq_def]
      simp only [if_neg hc]
      rw [ih (some c) (fun x hx => h x (List.mem_cons_of_mem _ hx))]
      rfl

theorem mem_deUnderscoreA (cs : List Char) :
    ∀ (prev : Option Char) (ds : List Char) (ch : Char),
      deUnderscoreA prev cs = some ds → ch ∈ cs → ¬ ch = '_' → ch ∈ ds := by
  induction cs with
  | nil => intro prev ds ch hds hm; cases hm
  | cons c cs ih =>
      intro prev ds ch hds hm hch
      rw [deUnderscoreA.eq_def] at hds
      by_cases hc : c = '_'
      · simp only [if_pos hc] at hds
        rcases List.mem_cons.mp hm with rfl | hm2
        · exact absurd hc hch
        · cases prev with
          | none =>
              cases cs with
              | nil => cases hds
              | cons d ds2 => cases hds
          | some p =>
              cases cs with
              | nil => cases hds
              | cons d ds2 =>
                  dsimp only at hds
                  by_cases hpd : (isDigitCh p && isDigitCh d) = true
                  · rw [if_pos hpd] at hds
                    exact ih (some c) ds ch hds hm2 hch
                  · rw [if_neg hpd] at hds
                    cases hds
      · simp only [if_neg hc] at hds
        cases hx : deUnderscoreA (some c) cs with
        | none => rw [hx] at hds; cases hds
        | some es =>
            rw [hx] at hds
            have hde : c :: es = ds := by simpa using hds
            subst hde
            rcases List.mem_cons.mp hm with rfl | hm2
            · exact List.mem_cons_self _ _
            · exact List.mem_cons_of_mem _ (ih (some c) es ch hx hm2 hch)

theorem map_lower_ne_spelling (l sp : List Char) (ch : Char) (hm : ch ∈ l)
    (hch : ¬ pyLowerCh ch ∈ sp) : ¬ l.map pyLowerCh = sp := by
  intro he
  exact hch (he ▸ List.mem_map_of_mem pyLowerCh hm)

theorem pyFloatCore_digits_dot (d c : List Char) (hd : d ≠ [])
    (hda : d.all isDigitCh = true) (hca : c.all isDigitCh = true) :
    pyFloatCore (d ++ '.' :: c) =
      some (PyFloat.fin ((natOfDigits d : ℚ) +
        (natOfDigits c : ℚ) / (10 : ℚ) ^ c.length)) := by
  have hch : ∀ x ∈ d ++ '.' :: c, isDigitCh x = true ∨ x = '.' := by
    intro x hx
    rcases List.mem_append.mp hx with hx | hx
    · exact Or.inl (List.all_eq_true.mp hda x hx)
    · rcases List.mem_cons.mp hx with rfl | hx
      · exact Or.inr rfl
      · exact Or.inl (List.all_eq_true.mp hca x hx)
  have hns : stripSign (d ++ '.' :: c) = (false, d ++ '.' :: c) := by
    apply stripSign_no_sign
    intro x hx
    have hxm : x ∈ d ++ '.' :: c := by
      cases d with
      | nil =>
          have : '.' = x := by simpa using hx
          subst this
          exact List.mem_append_right _ (List.mem_cons_self _ _)
      | cons d0 d2 =>
          have : d0 = x := by simpa using hx
          subst this
          exact List.mem_append_left _ (List.mem_cons_self _ _)
    rcases hch x hxm with hxd | rfl
    · exact ⟨isDigitCh_ne x hxd '+' (by decide),
        isDigitCh_ne x hxd '-' (by decide)⟩
    · exact ⟨by decide, by decide⟩
  have hdot : '.' ∈ d ++ '.' :: c :=
    List.mem_append_right _ (List.mem_cons_self _ _)
  unfold pyFloatCore
  rw [hns]
  dsimp only
  rw [if_neg (not_or.mpr
    ⟨map_lower_ne_spelling _ _ '.' hdot (by decide),
     map_lower_ne_spelling _ _ '.' hdot (by decide)⟩)]
  rw [if_neg (map_lower_ne_spelling _ _ '.' hdot (by decide))]
  rw [deUnderscoreA_no_underscore (d ++ '.' :: c) none (fun x hx => by
    rcases hch x hx with hxd | rfl
    · exact isDigitCh_ne x hxd '_' (by decide)
    · decide)]
  show (pyFloatNum (d ++ '.' :: c)).map PyFloat.fin = _
  rw [pyFloatNum_digits_dot d c hd hda hca]
  rfl

theorem pyFloatCore_none_of_bad (cs : List Char) (ch : Char) (hm : ch ∈ cs)
    (hdg : isDigitCh ch = false) (h1 : ch ≠ '.') (h2 : ch ≠ '+')
    (h3 : ch ≠ '-') (h4 : ch ≠ 'e') (h5 : ch ≠ 'E') (h6 : ch ≠ '_')
    (h7 : ¬ pyLowerCh ch ∈ ['i', 'n', 'f', 'a', 't', 'y']) :
    pyFloatCore cs = none := by
  have hms : ch ∈ (stripSign cs).2 := mem_stripSign cs ch hm h2 h3
  have hsub : ∀ sp : List Char,
      (∀ x ∈ sp, x ∈ ['i', 'n', 'f', 'a', 't', 'y']) →
      ¬ (stripSign cs).2.map pyLowerCh = sp :=
    fun sp hsp =>
      map_lower_ne_spelling _ sp ch hms (fun hmem => h7 (hsp _ hmem))
  unfold pyFloatCore
  rw [if_neg (not_or.mpr ⟨hsub _ (by decide), hsub _ (by decide)⟩)]
  rw [if_neg (hsub _ (by decide))]
  cases hdu : deUnderscoreA none cs with
  | none => rfl
  | some body =>
      show (pyFloatNum body).map PyFloat.fin = none
      rw [pyFloatNum_none_of_bad body ch
        (mem_deUnderscoreA cs none body ch hdu hm h6) hdg h1 h2 h3 h4 h5]
      rfl

theorem isDigitCh_not_space (x : Char) (hx : isDigitCh x = true) :
    isSpaceCh x = false := by
  cases hsp : isSpaceCh x
  · rfl
  · exfalso
    unfold isSpaceCh at hsp
    rcases (by simpa using hsp :
        ((((x = ' ' ∨ x = '\t') ∨ x = '\n') ∨ x = '\x0d') ∨
          x = Char.ofNat 11) ∨ x = Char.ofNat 12)
      with ((((rfl | rfl) | rfl) | rfl) | rfl) | rfl <;>
      exact absurd hx (by decide)

/-- C7 (amended): _to_float_de converts every German decimal string
shaped as digits (with arbitrary thousands dots) comma cents to the
equivalent finite value (covering both "1.234,56" and "11,30"), and
returns none on any input containing a character that can occur in no
float() literal at all — not a digit, not one of the separator, sign,
exponent or underscore characters, and not (case-insensitively) a letter
of the inf or nan spellings, which float() does accept; the function is
total, so no exception escapes.  Inputs made only of float()-literal
characters need not yield none: see the counterexample. -/
theorem to_float_de_spec :
    (∀ (a c : List Char),
      a.all (fun ch => isDigitCh ch || decide (ch = '.')) = true →
      a.any isDigitCh = true →
      c ≠ [] → c.all isDigitCh = true →
      to_float_de (String.mk (a ++ ',' :: c)) =
        some (PyFloat.fin ((natOfDigits (a.filter isDigitCh) : ℚ) +
          (natOfDigits c : ℚ) / (10 : ℚ) ^ c.length))) ∧
    (∀ (s : String) (ch : Char), ch ∈ s.data →
      isSpaceCh ch = false → isDigitCh ch = false → ch ≠ '.' → ch ≠ ',' →
      ch ≠ '+' → ch ≠ '-' → ch ≠ 'e' → ch ≠ 'E' → ch ≠ '_' →
      ¬ pyLowerCh ch ∈ ['i', 'n', 'f', 'a', 't', 'y'] →
      to_float_de s = none) := by
  constructor
  · intro a c ha hany hc hca
    unfold to_float_de
    rw [show (String.mk (a ++ ',' :: c)).data = a ++ ',' :: c from rfl]
    have hnospace : (a ++ ',' :: c).all (fun x => !(isSpaceCh x)) = true := by
      apply List.all_eq_true.mpr
      intro x hx
      rcases List.mem_append.mp hx with hx | hx
      · rcases Bool.or_eq_true_iff.mp (List.all_eq_true.mp ha x hx) with
          hd | hdot
        · simp [isDigitCh_not_space x hd]
        · have : x = '.' := by simpa using hdot
          subst this
          decide
      · rcases List.mem_cons.mp hx with rfl | hx
        · decide
        · simp [isDigitCh_not_space x (List.all_eq_true.mp hca x hx)]
    rw [pyStrip_of_no_space _ hnospace]
    rw [if_neg (by simp)]
    rw [deTransform_append, deTransform_comma_cons,
      deTransform_digit_dot a ha]
    have hdc : deTransform c = c := by
      rw [deTransform_digit_dot c (List.all_eq_true.mpr (fun x hx => by
        rw [List.all_eq_true.mp hca x hx]
        rfl))]
      exact List.filter_eq_self.mpr (fun x hx => List.all_eq_true.mp hca x hx)
    rw [hdc]
    have hfall : (a.filter isDigitCh).all isDigitCh = true :=
      List.all_eq_true.mpr (fun x hx => (List.mem_filter.mp hx).2)
    rw [pyStrip_of_no_space _ (by
      apply List.all_eq_true.mpr
      intro x hx
      rcases List.mem_append.mp hx with hx | hx
      · simp [isDigitCh_not_space x (List.all_eq_true.mp hfall x hx)]
      · rcases List.mem_cons.mp hx with rfl | hx
        · decide
        · simp [isDigitCh_not_space x (List.all_eq_true.mp hca x hx)])]
    apply pyFloatCore_digits_dot
    · obtain ⟨x, hx, hxd⟩ := List.any_eq_true.mp hany
      exact List.ne_nil_of_mem (List.mem_filter.mpr ⟨hx, hxd⟩)
    · exact hfall
    · exact hca
  · intro s ch hm hsp hdg hdot hcom hpl hmi he hE hund hlet
    unfold to_float_de
    have hmem1 : ch ∈ pyStrip s.data := mem_pyStrip _ _ hm hsp
    rw [if_neg (by
      intro hnil
      rw [hnil] at hmem1
      cases hmem1)]
    exact pyFloatCore_none_of_bad _ ch
      (mem_pyStrip _ _ (mem_deTransform _ _ hmem1 hdot hcom) hsp)
      hdg hdot hpl hmi he hE hund hlet

/-- C7 witness: the two documented conversions and a rejection. -/
theorem to_float_de_spec_witness :
    to_float_de (String.mk ("1.234".data ++ ',' :: "56".data)) =
      some (PyFloat.fin ((natOfDigits ("1.234".data.filter isDigitCh) : ℚ) +
        (natOfDigits "56".data : ℚ) / (10 : ℚ) ^ "56".data.length)) ∧
    to_float_de "12x7" = none := by
  constructor
  · exact to_float_de_spec.1 "1.234".data "56".data (by decide) (by decide)
      (by decide) (by decide)
  · exact to_float_de_spec.2 "12x7" 'x' (by decide) (by decide) (by decide)
      (by decide) (by decide) (by decide) (by decide) (by decide) (by decide)
      (by decide) (by decide)

/-- C7 counterexample: float() also accepts the inf and nan spellings
and underscore digit grouping, so an input whose residue is not numeric
can still convert: "inf" yields the infinite value and "1_000" yields
1000, refuting null-on-any-non-numeric-residue. -/
theorem to_float_de_inf_counterexample :
    to_float_de "inf" = some (PyFloat.inf false) ∧
    to_float_de "1_000" = some (PyFloat.fin 1000) := by
  constructor
  · rfl
  · rw [show to_float_de "1_000" = some (PyFloat.fin
        (((1000 : Nat) : ℚ) + ((0 : Nat) : ℚ) / (10 : ℚ) ^ (0 : Nat)))
      from rfl]
    norm_num

theorem isDigitCh_ofNat_digit (k : Nat) (h : k < 10) :
    isDigitCh (Char.ofNat (48 + k)) = true := by
  interval_cases k <;> decide

theorem not_space_ofNat_digit (k : Nat) (h : k < 10) :
    isSpaceCh (Char.ofNat (48 + k)) = false := by
  interval_cases k <;> decide

/-- C8 (amended): _parse_german_date_or_datetime accepts exactly three
shapes.  A string matching the ISO digit shape dddd-dd-dd is returned
unchanged as the date component WITHOUT calendar validation; strings
matching the German date shape DD.MM.YYYY or the German datetime shape
DD.MM.YYYY HH:MM:SS — the seconds are required, a seconds-less
DD.MM.YYYY HH:MM time is not a recognized shape — are calendar-validated
and converted to ISO (invalid calendar values yield nulls); every other
input, including the empty string, yields (null, null); the function is
total, so it never raises.  Printed ISO dates round-trip unchanged. -/
theorem parse_german_date_spec :
    (∀ s : String, s ≠ "" → isoShapeCheck (pyStrip s.data) = true →
      parse_german_date_or_datetime s =
        (some (String.mk (pyStrip s.data)), none)) ∧
    (∀ s : String, s ≠ "" → isoShapeCheck (pyStrip s.data) = false →
      parse_german_date_or_datetime s =
        (match deDateShape (pyStrip s.data) with
         | some (d, mo, y) =>
             if dateValid y mo d then (some (isoDateStr y mo d), none)
             else (none, none)
         | none =>
             match deDateTimeShape (pyStrip s.data) with
             | some (d, mo, y, hh, mi, ss) =>
                 if dateValid y mo d && timeValid hh mi ss then
                   (some (isoDateStr y mo d),
                    some (isoDateTimeStr y mo d hh mi ss))
                 else (none, none)
             | none => (none, none))) ∧
    (∀ y mo d : Nat, dateValid y mo d = true →
      parse_german_date_or_datetime (isoDateStr y mo d) =
        (some (isoDateStr y mo d), none)) := by
  refine ⟨?_, ?_, ?_⟩
  · intro s hs hiso
    unfold parse_german_date_or_datetime
    rw [if_neg hs, if_pos hiso]
  · intro s hs hiso
    unfold parse_german_date_or_datetime
    rw [if_neg hs, if_neg (by simp [hiso])]
  · intro y mo d hv
    have hlist : (isoDateStr y mo d).data =
        [Char.ofNat (48 + y / 1000 % 10), Char.ofNat (48 + y / 100 % 10),
         Char.ofNat (48 + y / 10 % 10), Char.ofNat (48 + y / 1 % 10), '-',
         Char.ofNat (48 + mo / 10 % 10), Char.ofNat (48 + mo / 1 % 10), '-',
         Char.ofNat (48 + d / 10 % 10), Char.ofNat (48 + d / 1 % 10)] := by
      show (padNum 4 y ++ "-" ++ padNum 2 mo ++ "-" ++ padNum 2 d).data = _
      rw [String.data_append, String.data_append, String.data_append,
        String.data_append]
      simp [padNum, List.range_succ]
    have hmod : ∀ n k : Nat, n / 10 ^ k % 10 < 10 :=
      fun n k => Nat.mod_lt _ (by norm_num)
    have hnosp : (isoDateStr y mo d).data.all
        (fun x => !(isSpaceCh x)) = true := by
      rw [hlist]
      simp only [List.all_cons, List.all_nil, Bool.and_eq_true,
        Bool.not_eq_true']
      refine ⟨?_, ?_, ?_, ?_, by decide, ?_, ?_, by decide, ?_, ?_, trivial⟩
      · exact not_space_ofNat_digit _ (by simpa using hmod y 3)
      · exact not_space_ofNat_digit _ (by simpa using hmod y 2)
      · exact not_space_ofNat_digit _ (by simpa using hmod y 1)
      · exact not_space_ofNat_digit _ (by simpa using hmod y 0)
      · exact not_space_ofNat_digit _ (by simpa using hmod mo 1)
      · exact not_space_ofNat_digit _ (by simpa using hmod mo 0)
      · exact not_space_ofNat_digit _ (by simpa using hmod d 1)
      · exact not_space_ofNat_digit _ (by simpa using hmod d 0)
    have hstrip : pyStrip (isoDateStr y mo d).data = (isoDateStr y mo d).data :=
      pyStrip_of_no_space _ hnosp
    have hiso : isoShapeCheck (pyStrip (isoDateStr y mo d).data) = true := by
      rw [hstrip, hlist]
      simp only [isoShapeCheck, Bool.and_eq_true]
      refine ⟨⟨⟨⟨⟨⟨⟨⟨⟨by decide, by decide⟩, ?_⟩, ?_⟩, ?_⟩, ?_⟩, ?_⟩, ?_⟩,
        ?_⟩, ?_⟩
      · exact isDigitCh_ofNat_digit _ (by simpa using hmod y 3)
      · exact isDigitCh_ofNat_digit _ (by simpa using hmod y 2)
      · exact isDigitCh_ofNat_digit _ (by simpa using hmod y 1)
      · exact isDigitCh_ofNat_digit _ (by simpa using hmod y 0)
      · exact isDigitCh_ofNat_digit _ (by simpa using hmod mo 1)
      · exact isDigitCh_ofNat_digit _ (by simpa using hmod mo 0)
      · exact isDigitCh_ofNat_digit _ (by simpa using hmod d 1)
      · exact isDigitCh_ofNat_digit _ (by simpa using hmod d 0)
    have hne : isoDateStr y mo d ≠ "" := by
      intro he
      have := congrArg String.data he
      rw [hlist] at this
      cases this
    unfold parse_german_date_or_datetime
    rw [if_neg hne, if_pos hiso, hstrip]

/-- C8 witness: the German date form converts, an impossible calendar
date yields nulls, a seconds-less time yields nulls, and a printed ISO
date round-trips unchanged. -/
theorem parse_german_date_spec_witness :
    parse_german_date_or_datetime "16.12.2025" = (some "2025-12-16", none) ∧
    parse_german_date_or_datetime "31.02.2025" = (none, none) ∧
    parse_german_date_or_datetime "16.12.2025 12:08" = (none, none) ∧
    parse_german_date_or_datetime (isoDateStr 2025 12 18) =
      (some (isoDateStr 2025 12 18), none) := by
  refine ⟨?_, ?_, ?_, ?_⟩
  · have h := parse_german_date_spec.2.1 "16.12.2025" (by decide) (by decide)
    rw [h]
    decide
  · have h := parse_german_date_spec.2.1 "31.02.2025" (by decide) (by decide)
    rw [h]
    decide
  · have h := parse_german_date_spec.2.1 "16.12.2025 12:08" (by decide)
      (by decide)
    rw [h]
    decide
  · exact parse_german_date_spec.2.2 2025 12 18 (by decide)

/-- C8 counterexample: "2025-13-99" is not a calendar-valid ISO date,
yet the parser returns it unchanged instead of (null, null) — the ISO
branch does no calendar validation, refuting the claim that every input
other than the three valid forms yields nulls. -/
theorem iso_shape_no_validation_counterexample :
    dateValid 2025 13 99 = false ∧
    parse_german_date_or_datetime "2025-13-99" =
      (some "2025-13-99", none) := by
  exact ⟨by decide, by decide⟩

theorem persistRecord_orders (db : Db) (now : String) (pid : Int)
    (p : SyncPayload) :
    (persistRecord db now pid p).orders =
      db.orders.filter (fun r => decide (r.id ≠ p.row.id)) ++ [p.row] := by
  unfold persistRecord db_upsert_order db_replace_parts db_upsert_sections
    db_upsert_employees
  split_ifs <;> rfl

theorem persistRecord_parts (db : Db) (now : String) (pid : Int)
    (p : SyncPayload) :
    (persistRecord db now pid p).parts =
      (if p.parts ≠ [] then
        p.parts.foldl (fun acc q => partInsertOrReplace acc ⟨pid, q⟩)
          (db.parts.filter (fun q => decide (q.order_id ≠ pid)))
      else db.parts) := by
  unfold persistRecord db_upsert_order db_replace_parts db_upsert_sections
    db_upsert_employees
  split_ifs <;> rfl

theorem persistRecord_sections (db : Db) (now : String) (pid : Int)
    (p : SyncPayload) :
    (persistRecord db now pid p).sections =
      (if p.sections ≠ [] then
        p.sections.foldl
          (fun acc s => sectionInsertOrReplace acc (sectionRowOf now pid s))
          db.sections
      else db.sections) := by
  unfold persistRecord db_upsert_order db_replace_parts db_upsert_sections
    db_upsert_employees
  split_ifs <;> rfl

theorem ordersFor_persist (db : Db) (now : String) (pid : Int)
    (p : SyncPayload) (hrow : p.row.id = pid) :
    ordersFor (persistRecord db now pid p) pid = [p.row] := by
  unfold ordersFor
  rw [persistRecord_orders, List.filter_append, List.filter_filter]
  rw [show (db.orders.filter fun r =>
      decide (r.id = pid) && decide (r.id ≠ p.row.id)) = [] from by
    apply List.filter_eq_nil_iff.mpr
    intro r _
    by_cases h : r.id = pid
    · simp [h, hrow]
    · simp [h]]
  simp [hrow]

theorem replace_parts_fold (ps : List PartRow) (acc : List PartDbRow)
    (oid : Int)
    (hnc : ∀ p ∈ ps, ∀ q ∈ acc,
      ¬(q.order_id = oid ∧ partKey q.part = partKey p))
    (hup : ps.Pairwise (fun a b => partKey a ≠ partKey b)) :
    ps.foldl (fun acc p => partInsertOrReplace acc ⟨oid, p⟩) acc =
      acc ++ ps.map (fun p => (⟨oid, p⟩ : PartDbRow)) := by
  induction ps generalizing acc with
  | nil => simp
  | cons p ps ih =>
      simp only [List.foldl_cons, List.map_cons]
      have hstep : partInsertOrReplace acc ⟨oid, p⟩ =
          acc ++ [(⟨oid, p⟩ : PartDbRow)] := by
        unfold partInsertOrReplace
        congr 1
        apply List.filter_eq_self.mpr
        intro q hq
        simp only [decide_eq_true_eq]
        exact hnc p (List.mem_cons_self _ _) q hq
      rw [hstep,
        ih (acc ++ [({ order_id := oid, part := p } : PartDbRow)])
          (by
            intro p' hp' q hq
            rcases List.mem_append.mp hq with hq | hq
            · exact hnc p' (List.mem_cons_of_mem _ hp') q hq
            · have hqe : q = ({ order_id := oid, part := p } : PartDbRow) := by
                simpa using hq
              subst hqe
              intro hcon
              exact ((List.pairwise_cons.mp hup).1 p' hp') hcon.2)
          (List.pairwise_cons.mp hup).2]
      simp

theorem partsFor_persist (db : Db) (now : String) (pid : Int)
    (p : SyncPayload)
    (hpk : p.parts.Pairwise (fun a b => partKey a ≠ partKey b)) :
    partsFor (persistRecord db now pid p) pid =
      (if p.parts ≠ [] then
        p.parts.map (fun q => (⟨pid, q⟩ : PartDbRow))
      else partsFor db pid) := by
  unfold partsFor
  rw [persistRecord_parts]
  by_cases hne : p.parts ≠ []
  · rw [if_pos hne, if_pos hne]
    rw [replace_parts_fold p.parts _ pid
      (by
        intro p' _ q hq
        have := (List.mem_filter.mp hq).2
        simp only [decide_eq_true_eq] at this
        intro hcon
        exact this hcon.1) hpk]
    rw [List.filter_append, List.filter_filter]
    rw [show (db.parts.filter fun q =>
        decide (q.order_id = pid) && decide (q.order_id ≠ pid)) = [] from by
      apply List.filter_eq_nil_iff.mpr
      intro q _
      by_cases h : q.order_id = pid
      · simp [h]
      · simp [h]]
    rw [show ((p.parts.map (fun q => (⟨pid, q⟩ : PartDbRow))).filter
        (fun q => decide (q.order_id = pid))) =
        p.parts.map (fun q => (⟨pid, q⟩ : PartDbRow)) from by
      apply List.filter_eq_self.mpr
      intro q hq
      obtain ⟨x, _, rfl⟩ := List.mem_map.mp hq
      simp]
    simp
  · rw [if_neg hne, if_neg hne]

theorem upsert_sections_fold (secs : List (String × SectionPayload))
    (acc : List SectionDbRow) (now : String) (oid : Int)
    (hnd : (secs.map (·.1)).Nodup) :
    secs.foldl
      (fun acc s => sectionInsertOrReplace acc (sectionRowOf now oid s))
      acc =
    acc.filter (fun q =>
      decide (¬(q.order_id = oid ∧ q.section_name ∈ secs.map (·.1)))) ++
      secs.map (sectionRowOf now oid) := by
  induction secs generalizing acc with
  | nil =>
      simp only [List.foldl_nil, List.map_nil, List.append_nil]
      symm
      apply List.filter_eq_self.mpr
      intro q _
      simp
  | cons s secs ih =>
      simp only [List.foldl_cons, List.map_cons]
      rw [show sectionInsertOrReplace acc (sectionRowOf now oid s) =
          acc.filter (fun q =>
            decide (¬(q.order_id = oid ∧ q.section_name = s.1))) ++
            [sectionRowOf now oid s] from rfl]
      simp only [List.map_cons, Bool.and_eq_true] at hnd
      rw [ih _ (List.nodup_cons.mp hnd).2]
      rw [List.filter_append, List.filter_filter]
      rw [show ((([sectionRowOf now oid s]).filter (fun q =>
          decide (¬(q.order_id = oid ∧
            q.section_name ∈ secs.map (·.1)))))) =
          [sectionRowOf now oid s] from by
        apply List.filter_eq_self.mpr
        intro q hq
        have hqe : q = sectionRowOf now oid s := by simpa using hq
        subst hqe
        simp only [decide_eq_true_eq]
        intro hcon
        exact (List.nodup_cons.mp hnd).1 (by simpa [sectionRowOf] using hcon.2)]
      rw [List.filter_congr (fun q _ => by
        show (decide (¬(q.order_id = oid ∧
            q.section_name ∈ secs.map (·.1))) &&
          decide (¬(q.order_id = oid ∧ q.section_name = s.1))) =
          decide (¬(q.order_id = oid ∧
            q.section_name ∈ s.1 :: secs.map (·.1)))
        by_cases ho : q.order_id = oid
        · by_cases hm1 : q.section_name ∈ secs.map (·.1)
          · simp [ho, hm1]
          · by_cases hm2 : q.section_name = s.1
            · simp [ho, hm1, hm2]
            · simp [ho, hm1, hm2]
        · simp [ho])]
      simp

theorem sectionsFor_persist (db : Db) (now : String) (pid : Int)
    (p : SyncPayload) (hsk : (p.sections.map (·.1)).Nodup) :
    sectionsFor (persistRecord db now pid p) pid =
      (if p.sections ≠ [] then
        (sectionsFor db pid).filter (fun q =>
          decide (¬ q.section_name ∈ p.sections.map (·.1))) ++
          p.sections.map (sectionRowOf now pid)
      else sectionsFor db pid) := by
  unfold sectionsFor
  rw [persistRecord_sections]
  by_cases hne : p.sections ≠ []
  · rw [if_pos hne, if_pos hne]
    rw [upsert_sections_fold _ _ _ _ hsk]
    rw [List.filter_append, List.filter_filter, List.filter_filter]
    congr 1
    · apply List.filter_congr
      intro q _
      by_cases ho : q.order_id = pid
      · by_cases hm : q.section_name ∈ p.sections.map (·.1) <;>
          simp [ho, hm]
      · simp [ho]
    · apply List.filter_eq_self.mpr
      intro q hq
      obtain ⟨s, _, rfl⟩ := List.mem_map.mp hq
      simp [sectionRowOf]
  · rw [if_neg hne, if_neg hne]

/-- C1 (amended): re-syncing the same order twice with identical source
data yields exactly one row per natural key in orders, parts and
order_sections, with parts and order_sections content equal to the set
produced by the most recent sync.  The mechanisms differ from the claim:
parts are delete-all-for-this-order then insert (when the parsed list is
nonempty), but order_sections rows are per-(order, section) INSERT OR
REPLACE upserts with no delete, so only sections named in the current
payload are replaced (a differently named section from an earlier sync
would survive, see the counterexample). -/
theorem resync_full_replacement (db0 : Db) (now1 now2 : String) (pid : Int)
    (p : SyncPayload)
    (hfp : partsFor db0 pid = []) (hfs : sectionsFor db0 pid = [])
    (hrow : p.row.id = pid)
    (hpk : p.parts.Pairwise (fun a b => partKey a ≠ partKey b))
    (hsk : (p.sections.map (·.1)).Nodup) :
    ordersFor (persistRecord (persistRecord db0 now1 pid p) now2 pid p) pid =
      [p.row] ∧
    partsFor (persistRecord (persistRecord db0 now1 pid p) now2 pid p) pid =
      p.parts.map (fun q => ({ order_id := pid, part := q } : PartDbRow)) ∧
    sectionsFor (persistRecord (persistRecord db0 now1 pid p) now2 pid p)
      pid = p.sections.map (sectionRowOf now2 pid) := by
  refine ⟨ordersFor_persist _ _ _ _ hrow, ?_, ?_⟩
  · by_cases hne : p.parts = []
    · rw [partsFor_persist _ _ _ _ hpk, if_neg (not_not_intro hne),
        partsFor_persist _ _ _ _ hpk, if_neg (not_not_intro hne), hfp, hne]
      rfl
    · rw [partsFor_persist _ _ _ _ hpk, if_pos hne]
  · by_cases hne : p.sections = []
    · rw [sectionsFor_persist _ _ _ _ hsk, if_neg (not_not_intro hne),
        sectionsFor_persist _ _ _ _ hsk, if_neg (not_not_intro hne), hfs,
        hne]
      rfl
    · rw [sectionsFor_persist _ _ _ _ hsk, if_pos hne,
        sectionsFor_persist _ _ _ _ hsk, if_pos hne, hfs]
      simp only [List.filter_nil, List.nil_append]
      rw [show ((p.sections.map (sectionRowOf now1 pid)).filter (fun q =>
          decide (¬ q.section_name ∈ p.sections.map (·.1)))) = [] from by
        apply List.filter_eq_nil_iff.mpr
        intro q hq
        obtain ⟨s, hs, rfl⟩ := List.mem_map.mp hq
        simp only [sectionRowOf, decide_eq_true_eq, not_not]
        exact List.mem_map_of_mem _ hs]
      simp

/-- C1 witness: a double sync of a fresh order with one part and one
section leaves exactly the payload row in the orders table. -/
theorem resync_full_replacement_witness :
    ordersFor
      (persistRecord
        (persistRecord emptyDb "t1" 5
          { row :=
              { id := 5, short_name := "A", plate := "", person := "",
                phone := "", email := "", damage := "", project_status := "",
                station_id := none, station_state := none, shop_date := "",
                repair_date := "", finish_date := "",
                planned_delivery_date := "", parts_status := "",
                missing_parts := false, est_hours_karo := none,
                est_hours_lack := none, est_hours_mech := none,
                fields_json := [], vehicle_json := [],
                last_synced_at := "t1" },
            emp := [], parts := [blankPart],
            sections :=
              [("parts",
                { content_type := "text/html", raw_text := "x",
                  data_json := "{}" })] })
        "t2" 5
        { row :=
            { id := 5, short_name := "A", plate := "", person := "",
              phone := "", email := "", damage := "", project_status := "",
              station_id := none, station_state := none, shop_date := "",
              repair_date := "", finish_date := "",
              planned_delivery_date := "", parts_status := "",
              missing_parts := false, est_hours_karo := none,
              est_hours_lack := none, est_hours_mech := none,
              fields_json := [], vehicle_json := [],
              last_synced_at := "t1" },
          emp := [], parts := [blankPart],
          sections :=
            [("parts",
              { content_type := "text/html", raw_text := "x",
                data_json := "{}" })] })
      5 =
    [{ id := 5, short_name := "A", plate := "", person := "", phone := "",
       email := "", damage := "", project_status := "", station_id := none,
       station_state := none, shop_date := "", repair_date := "",
       finish_date := "", planned_delivery_date := "", parts_status := "",
       missing_parts := false, est_hours_karo := none,
       est_hours_lack := none, est_hours_mech := none, fields_json := [],
       vehicle_json := [], last_synced_at := "t1" }] := by
  have h := resync_full_replacement emptyDb "t1" "t2" 5
    { row :=
        { id := 5, short_name := "A", plate := "", person := "",
          phone := "", email := "", damage := "", project_status := "",
          station_id := none, station_state := none, shop_date := "",
          repair_date := "", finish_date := "",
          planned_delivery_date := "", parts_status := "",
          missing_parts := false, est_hours_karo := none,
          est_hours_lack := none, est_hours_mech := none,
          fields_json := [], vehicle_json := [], last_synced_at := "t1" },
      emp := [], parts := [blankPart],
      sections :=
        [("parts",
          { content_type := "text/html", raw_text := "x",
            data_json := "{}" })] }
    rfl rfl rfl (by simp) (by simp)
  exact h.1

/-- C1 counterexample: order_sections writes are not delete-then-insert.
After a sync storing sections a and b, a later sync of the same order
storing only section a leaves the stale row b in place; the spec-modelled
delete-all-then-insert discipline would leave exactly one row. -/
theorem sections_residue_counterexample :
    (sectionsFor
      (db_upsert_sections
        (db_upsert_sections emptyDb "t1" 5
          [("a",
            { content_type := "text/html", raw_text := "A",
              data_json := "{}" }),
           ("b",
            { content_type := "text/html", raw_text := "B",
              data_json := "{}" })])
        "t2" 5
        [("a",
          { content_type := "text/html", raw_text := "A",
            data_json := "{}" })])
      5).map (fun q => q.section_name) = ["b", "a"] ∧
    (sectionsFor
      (spec_replace_sections
        (db_upsert_sections emptyDb "t1" 5
          [("a",
            { content_type := "text/html", raw_text := "A",
              data_json := "{}" }),
           ("b",
            { content_type := "text/html", raw_text := "B",
              data_json := "{}" })])
        "t2" 5
        [("a",
          { content_type := "text/html", raw_text := "A",
            data_json := "{}" })])
      5).map (fun q => q.section_name) = ["a"] ∧
    (["b", "a"] : List String) ≠ ["a"] := by
  exact ⟨rfl, rfl, by decide⟩

theorem runSync_fail_aux (now : String) (results : List SyncResultRec) :
    ∀ st : SyncState,
      (results.foldl (applySyncResult now) st).failCount =
        st.failCount + results.countP resFailed := by
  induction results with
  | nil => intro st; simp
  | cons r rs ih =>
      intro st
      simp only [List.foldl_cons]
      cases hr : r.result with
      | ok pay =>
          rw [List.countP_cons_of_neg _ _ (by simp [resFailed, hr]), ih]
          simp [applySyncResult, hr]
      | error e =>
          rw [List.countP_cons_of_pos _ _ (by simp [resFailed, hr]), ih]
          simp only [applySyncResult, hr]
          omega

theorem runSync_ok_aux (now : String) (results : List SyncResultRec) :
    ∀ st : SyncState,
      (results.foldl (applySyncResult now) st).okCount =
        st.okCount + results.countP (fun r => !(resFailed r)) := by
  induction results with
  | nil => intro st; simp
  | cons r rs ih =>
      intro st
      simp only [List.foldl_cons]
      cases hr : r.result with
      | ok pay =>
          rw [List.countP_cons_of_pos _ _ (by simp [resFailed, hr]), ih]
          simp only [applySyncResult, hr]
          omega
      | error e =>
          rw [List.countP_cons_of_neg _ _ (by simp [resFailed, hr]), ih]
          simp [applySyncResult, hr]

theorem orderPresent_persist (db : Db) (now : String) (pid : Int)
    (p : SyncPayload) (oid : Int) (h : orderPresent db oid = true) :
    orderPresent (persistRecord db now pid p) oid = true := by
  unfold orderPresent at h ⊢
  rw [persistRecord_orders, List.any_append]
  by_cases hid : p.row.id = oid
  · simp [hid]
  · obtain ⟨r, hr, hre⟩ := List.any_eq_true.mp h
    apply Bool.or_eq_true_iff.mpr
    left
    apply List.any_eq_true.mpr
    refine ⟨r, List.mem_filter.mpr ⟨hr, ?_⟩, hre⟩
    simp only [decide_eq_true_eq] at hre ⊢
    rw [hre]
    exact fun he => hid he.symm

theorem orderPresent_persist_self (db : Db) (now : String) (pid : Int)
    (p : SyncPayload) :
    orderPresent (persistRecord db now pid p) p.row.id = true := by
  unfold orderPresent
  rw [persistRecord_orders, List.any_append]
  simp

theorem orderPresent_run_mono (now : String) (results : List SyncResultRec) :
    ∀ (st : SyncState) (oid : Int), orderPresent st.db oid = true →
      orderPresent ((results.foldl (applySyncResult now) st)).db oid = true := by
  induction results with
  | nil => intro st oid h; exact h
  | cons r rs ih =>
      intro st oid h
      simp only [List.foldl_cons]
      apply ih
      cases hr : r.result with
      | ok pay =>
          simp only [applySyncResult, hr]
          exact orderPresent_persist _ _ _ _ _ h
      | error e =>
          simpa [applySyncResult, hr] using h

theorem orderPresent_run_of_mem (now : String)
    (results : List SyncResultRec) :
    ∀ (st : SyncState) (res : SyncResultRec) (pay : SyncPayload),
      res ∈ results → res.result = .ok pay →
      orderPresent ((results.foldl (applySyncResult now) st)).db
        pay.row.id = true := by
  induction results with
  | nil => intro st res pay h; cases h
  | cons r rs ih =>
      intro st res pay hmem hok
      simp only [List.foldl_cons]
      rcases List.mem_cons.mp hmem with rfl | hmem'
      · apply orderPresent_run_mono
        simp only [applySyncResult, hok]
        exact orderPresent_persist_self _ _ _ _
      · exact ih _ res pay hmem' hok

/-- C2: per-record failure isolation in the sync orchestrator.  For any
completion order of the per-record results (submission order when jobs
is one, any permutation under the worker pool), a run over N records in
which exactly one pipeline raises reports N-1 successes and 1 failure,
persists every successful record's order row, and exits nonzero; and in
general the exit code of cmd_sync is nonzero exactly when at least one
record failed. -/
theorem sync_failure_isolation :
    (∀ (records : List SyncRecord) (completed : List SyncResultRec)
      (db0 : Db) (now : String),
      completed.Perm (records.map sync_one) →
      records.countP recordFailed = 1 →
      (runSyncResults db0 now completed).okCount = records.length - 1 ∧
      (runSyncResults db0 now completed).failCount = 1 ∧
      (∀ r ∈ records, ∀ pay, r.pipeline = .ok pay →
        orderPresent (runSyncResults db0 now completed).db
          pay.row.id = true) ∧
      syncExitCode (runSyncResults db0 now completed) ≠ 0) ∧
    (∀ (records : List SyncRecord) (completed : List SyncResultRec)
      (db0 : Db) (now : String),
      completed.Perm (records.map sync_one) →
      (syncExitCode (runSyncResults db0 now completed) ≠ 0 ↔
        records.countP recordFailed ≠ 0)) := by
  have hfail : ∀ (records : List SyncRecord) (completed : List SyncResultRec)
      (db0 : Db) (now : String),
      completed.Perm (records.map sync_one) →
      (runSyncResults db0 now completed).failCount =
        records.countP recordFailed := by
    intro records completed db0 now hperm
    unfold runSyncResults
    rw [runSync_fail_aux]
    rw [hperm.countP_eq, List.countP_map]
    rw [show List.countP (resFailed ∘ sync_one) records =
      List.countP recordFailed records from
      List.countP_congr (fun r _ => Iff.rfl)]
    simp
  have hok : ∀ (records : List SyncRecord) (completed : List SyncResultRec)
      (db0 : Db) (now : String),
      completed.Perm (records.map sync_one) →
      (runSyncResults db0 now completed).okCount =
        records.countP (fun r => !(recordFailed r)) := by
    intro records completed db0 now hperm
    unfold runSyncResults
    rw [runSync_ok_aux]
    rw [hperm.countP_eq, List.countP_map]
    rw [show List.countP ((fun r => !(resFailed r)) ∘ sync_one) records =
      List.countP (fun r => !(recordFailed r)) records from
      List.countP_congr (fun r _ => Iff.rfl)]
    simp
  constructor
  · intro records completed db0 now hperm hone
    refine ⟨?_, ?_, ?_, ?_⟩
    · rw [hok records completed db0 now hperm]
      have hlen := List.length_eq_countP_add_countP
        (l := records) recordFailed
      have hconv : records.countP (fun a => decide (¬ recordFailed a = true))
          = records.countP (fun r => !(recordFailed r)) := by
        apply List.countP_congr
        intro r _
        cases recordFailed r <;> decide
      omega
    · rw [hfail records completed db0 now hperm, hone]
    · intro r hr pay hpay
      have hmem : sync_one r ∈ completed := by
        rw [hperm.mem_iff]
        exact List.mem_map_of_mem _ hr
      exact orderPresent_run_of_mem now completed _ (sync_one r) pay hmem hpay
    · rw [show syncExitCode (runSyncResults db0 now completed) =
        (if (runSyncResults db0 now completed).failCount = 0 then 0 else 1)
        from rfl]
      rw [hfail records completed db0 now hperm, hone]
      simp
  · intro records completed db0 now hperm
    rw [show syncExitCode (runSyncResults db0 now completed) =
      (if (runSyncResults db0 now completed).failCount = 0 then 0 else 1)
      from rfl]
    rw [hfail records completed db0 now hperm]
    by_cases h : records.countP recordFailed = 0 <;> simp [h]

/-- C2 witness: two records, one with a transport error, give one
success, one failure, and a nonzero exit code. -/
theorem sync_failure_isolation_witness :
    (runSyncResults emptyDb "t"
      ([{ pid := 1, short_name := "A",
          pipeline := Except.ok
            { row :=
                { id := 1, short_name := "A", plate := "", person := "",
                  phone := "", email := "", damage := "",
                  project_status := "", station_id := none,
                  station_state := none, shop_date := "", repair_date := "",
                  finish_date := "", planned_delivery_date := "",
                  parts_status := "", missing_parts := false,
                  est_hours_karo := none, est_hours_lack := none,
                  est_hours_mech := none, fields_json := [],
                  vehicle_json := [], last_synced_at := "t" },
              emp := [], parts := [], sections := [] } },
        { pid := 2, short_name := "B",
          pipeline := Except.error "ReadTimeout" }].map sync_one)).okCount
      = 1 ∧
    (runSyncResults emptyDb "t"
      ([{ pid := 1, short_name := "A",
          pipeline := Except.ok
            { row :=
                { id := 1, short_name := "A", plate := "", person := "",
                  phone := "", email := "", damage := "",
                  project_status := "", station_id := none,
                  station_state := none, shop_date := "", repair_date := "",
                  finish_date := "", planned_delivery_date := "",
                  parts_status := "", missing_parts := false,
                  est_hours_karo := none, est_hours_lack := none,
                  est_hours_mech := none, fields_json := [],
                  vehicle_json := [], last_synced_at := "t" },
              emp := [], parts := [], sections := [] } },
        { pid := 2, short_name := "B",
          pipeline := Except.error "ReadTimeout" }].map sync_one)).failCount
      = 1 ∧
    syncExitCode (runSyncResults emptyDb "t"
      ([{ pid := 1, short_name := "A",
          pipeline := Except.ok
            { row :=
                { id := 1, short_name := "A", plate := "", person := "",
                  phone := "", email := "", damage := "",
                  project_status := "", station_id := none,
                  station_state := none, shop_date := "", repair_date := "",
                  finish_date := "", planned_delivery_date := "",
                  parts_status := "", missing_parts := false,
                  est_hours_karo := none, est_hours_lack := none,
                  est_hours_mech := none, fields_json := [],
                  vehicle_json := [], last_synced_at := "t" },
              emp := [], parts := [], sections := [] } },
        { pid := 2, short_name := "B",
          pipeline := Except.error "ReadTimeout" }].map sync_one)) ≠ 0 := by
  have h := sync_failure_isolation.1
    [{ pid := 1, short_name := "A",
       pipeline := Except.ok
         { row :=
             { id := 1, short_name := "A", plate := "", person := "",
               phone := "", email := "", damage := "",
               project_status := "", station_id := none,
               station_state := none, shop_date := "", repair_date := "",
               finish_date := "", planned_delivery_date := "",
               parts_status := "", missing_parts := false,
               est_hours_karo := none, est_hours_lack := none,
               est_hours_mech := none, fields_json := [],
               vehicle_json := [], last_synced_at := "t" },
           emp := [], parts := [], sections := [] } },
     { pid := 2, short_name := "B",
       pipeline := Except.error "ReadTimeout" }]
    ([{ pid := 1, short_name := "A",
        pipeline := Except.ok
          { row :=
              { id := 1, short_name := "A", plate := "", person := "",
                phone := "", email := "", damage := "",
                project_status := "", station_id := none,
                station_state := none, shop_date := "", repair_date := "",
                finish_date := "", planned_delivery_date := "",
                parts_status := "", missing_parts := false,
                est_hours_karo := none, est_hours_lack := none,
                est_hours_mech := none, fields_json := [],
                vehicle_json := [], last_synced_at := "t" },
            emp := [], parts := [], sections := [] } },
      { pid := 2, short_name := "B",
        pipeline := Except.error "ReadTimeout" }].map sync_one)
    emptyDb "t" (List.Perm.refl _) (by rfl)
  exact ⟨h.1, h.2.1, h.2.2.2⟩

theorem isTokenCh_ne_quote (x : Char) (hx : isTokenCh x = true) :
    ¬ x = '"' := by
  intro he
  rw [he] at hx
  cases hx

theorem tokA_tokens (acc cs : List Char) :
    acc.all isTokenCh = true →
    ∀ t ∈ tokA acc cs, t ≠ [] ∧ t.all isTokenCh = true := by
  induction acc, cs using tokA.induct with
  | case1 =>
      intro _ t ht
      rw [show tokA [] [] = [] from rfl] at ht
      cases ht
  | case2 acc hne =>
      intro hacc t ht
      simp only [tokA, if_neg hne] at ht
      have ht2 : t = acc.reverse := by simpa using ht
      subst ht2
      refine ⟨by simpa using hne, by simpa using hacc⟩
  | case3 acc c cs hc ih =>
      intro hacc t ht
      rw [tokA.eq_def] at ht
      simp only [if_pos hc] at ht
      refine ih (by
        simp only [List.all_cons, Bool.and_eq_true]
        exact ⟨by simp [isTokenCh, hc], hacc⟩) t ht
  | case4 a as d ds hd hh ih =>
      intro hacc t ht
      simp only [tokA, if_neg hh, if_pos rfl, if_pos hd] at ht
      refine ih (by
        simp only [List.all_cons, Bool.and_eq_true]
        simp only [List.all_cons, Bool.and_eq_true] at hacc
        exact ⟨by simp [isTokenCh, hd], by decide, hacc.1, hacc.2⟩) t ht
  | case5 a as d ds hd hh ih =>
      intro hacc t ht
      simp only [tokA, if_neg hh, if_pos rfl, if_neg hd] at ht
      rcases List.mem_cons.mp ht with rfl | ht'
      · refine ⟨by simp, by simp only [List.all_reverse]; exact hacc⟩
      · exact ih rfl t ht'
  | case6 hd tl hh =>
      intro hacc t ht
      simp only [tokA, if_neg hh, if_pos rfl] at ht
      have ht2 : t = (hd :: tl).reverse := by simpa using ht
      subst ht2
      refine ⟨by simp, by simp only [List.all_reverse]; exact hacc⟩
  | case7 ds hh ih =>
      intro hacc t ht
      simp only [tokA, if_neg hh, if_pos rfl] at ht
      exact ih rfl t ht
  | case8 c cs hc hcm ih =>
      intro hacc t ht
      rw [tokA.eq_def] at ht
      simp only [if_neg hc, if_neg hcm, if_pos rfl] at ht
      exact ih rfl t ht
  | case9 acc c cs hc hcm hne ih =>
      intro hacc t ht
      rw [tokA.eq_def] at ht
      simp only [if_neg hc, if_neg hcm, if_neg hne] at ht
      rcases List.mem_cons.mp ht with rfl | ht'
      · refine ⟨by simpa using hne, by simpa using hacc⟩
      · exact ih rfl t ht'

theorem tokenizeCh_tokens (cs : List Char) :
    ∀ t ∈ tokenizeCh cs, t ≠ [] ∧ t.all isTokenCh = true :=
  tokA_tokens [] cs rfl

theorem takeRun_append_stop (p : Char → Bool) (xs ys : List Char) (y : Char)
    (hxs : ∀ x ∈ xs, p x = true) (hy : p y = false) :
    takeRun p (xs ++ y :: ys) = (xs, y :: ys) := by
  induction xs with
  | nil => simp [takeRun, hy]
  | cons a as ih =>
      have ha : p a = true := hxs a (by simp)
      simp only [List.cons_append, takeRun, ha, if_true, List.append_eq]
      rw [ih (fun x hx => hxs x (by simp [hx]))]

theorem ftsReadPhrase_quoted (t rest : List Char)
    (ht : t.all isTokenCh = true) :
    ftsReadPhrase ('"' :: (t ++ '"' :: rest)) = some (t, rest) := by
  have hrun : takeRun (fun x => decide (x ≠ '"')) (t ++ '"' :: rest) =
      (t, '"' :: rest) := by
    refine takeRun_append_stop _ _ _ _ ?_ (by simp)
    intro x hx
    simp only [decide_eq_true_eq]
    exact isTokenCh_ne_quote x (List.all_eq_true.mp ht x hx)
  simp only [ftsReadPhrase, if_pos rfl, hrun, if_true]

theorem buildFtsQuery_singleton (t : List Char) :
    buildFtsQuery [t] = '"' :: (t ++ ['"']) := by
  simp [buildFtsQuery, List.intercalate]

theorem buildFtsQuery_cons (t u : List Char) (ts : List (List Char)) :
    buildFtsQuery (t :: u :: ts) =
      '"' :: (t ++ '"' :: (' ' :: 'A' :: 'N' :: 'D' :: ' ' ::
        buildFtsQuery (u :: ts))) := by
  simp [buildFtsQuery, List.intercalate, List.intersperse,
    show (" AND " : String).data = [' ', 'A', 'N', 'D', ' '] from rfl]

theorem ftsParseQueryF_build (ts : List (List Char)) :
    ∀ fuel : Nat, ts ≠ [] → (∀ x ∈ ts, x.all isTokenCh = true) →
      ts.length ≤ fuel → ftsParseQueryF fuel (buildFtsQuery ts) = some ts := by
  induction ts with
  | nil => intro fuel h _ _; exact absurd rfl h
  | cons t rest ih =>
      intro fuel _ hall hlen
      cases fuel with
      | zero => simp at hlen
      | succ f =>
          cases rest with
          | nil =>
              rw [buildFtsQuery_singleton]
              have hrp := ftsReadPhrase_quoted t [] (hall t (by simp))
              rw [ftsParseQueryF.eq_def]
              simp only [hrp]
          | cons u rest2 =>
              rw [buildFtsQuery_cons]
              have hrp := ftsReadPhrase_quoted t
                (' ' :: 'A' :: 'N' :: 'D' :: ' ' :: buildFtsQuery (u :: rest2))
                (hall t (by simp))
              have hih := ih f (by simp)
                (fun x hx => hall x (List.mem_cons_of_mem _ hx))
                (by simp only [List.length_cons] at hlen ⊢; omega)
              rw [ftsParseQueryF.eq_def]
              simp only [hrp, hih, Option.map_some']

theorem buildFtsQuery_length (ts : List (List Char)) :
    ts.length ≤ (buildFtsQuery ts).length + 1 := by
  induction ts with
  | nil => simp
  | cons t rest ih =>
      cases rest with
      | nil => simp [buildFtsQuery_singleton]
      | cons u rest2 =>
          rw [buildFtsQuery_cons]
          simp only [List.length_cons, List.length_append] at ih ⊢
          omega

theorem ftsParseQuery_build (ts : List (List Char)) (hne : ts ≠ [])
    (hall : ∀ x ∈ ts, x.all isTokenCh = true) :
    ftsParseQuery (buildFtsQuery ts) = some ts :=
  ftsParseQueryF_build ts _ hne hall (by
    have := buildFtsQuery_length ts
    omega)

theorem ftsExec_built_ok (store : List QRow) (ts : List (List Char))
    (hne : ts ≠ []) (hall : ∀ x ∈ ts, x.all isTokenCh = true) :
    ftsExecOnStore store (buildFtsQuery ts) =
      .ok (((store.filter (ftsRowMatch ts)).map (fun r => r.id)).take 200) := by
  unfold ftsExecOnStore
  rw [ftsParseQuery_build ts hne hall]

theorem freeTextPlan_eq (text : String)
    (exec : List Char → Except Unit (List Int)) :
    freeTextPlan text exec =
      (if tokenizeCh (pyStrip text.data) = [] then
        FreeTextPlan.likeFallback (String.mk (pyStrip text.data))
      else
        match exec (buildFtsQuery (tokenizeCh (pyStrip text.data))) with
        | .error _ => FreeTextPlan.likeFallback (String.mk (pyStrip text.data))
        | .ok [] => FreeTextPlan.likeFallback (String.mk (pyStrip text.data))
        | .ok rows => FreeTextPlan.idFilter rows) := rfl

/-- The one-row orders store of the free-text examples: an order whose
plate column holds the text "BB-SK 2307". -/
def ftsDemoStore : List QRow :=
  [⟨7, "X", "BB-SK 2307", "", "", "", "", "", ""⟩]

/-- C3: Free-text query safety (tool.py lines 2168-2201). (1) Every token
the query stage extracts from the stripped input is a nonempty run of
alphanumeric-or-hyphen characters taken literally from it. (2) Whenever
tokens exist, the conjunctive MATCH query built by double-quoting each
token parses — no syntax error, whatever special characters such as a
leading hyphen the input held — and the index returns exactly the rows
every literal token phrase matches. (3) With no tokens the stage falls
back to the LIKE scan over the five text columns. (4) When the index
backend errors, the stage falls back to the same LIKE scan. -/
theorem free_text_query_safety (text : String) (store : List QRow) :
    (∀ t ∈ tokenizeCh (pyStrip text.data), t ≠ [] ∧ t.all isTokenCh = true) ∧
    (tokenizeCh (pyStrip text.data) ≠ [] →
      ftsExecOnStore store (buildFtsQuery (tokenizeCh (pyStrip text.data))) =
        .ok (((store.filter
          (ftsRowMatch (tokenizeCh (pyStrip text.data)))).map
            (fun r => r.id)).take 200)) ∧
    (tokenizeCh (pyStrip text.data) = [] →
      freeTextPlan text (ftsExecOnStore store) =
        .likeFallback (String.mk (pyStrip text.data))) ∧
    (∀ exec : List Char → Except Unit (List Int),
      exec (buildFtsQuery (tokenizeCh (pyStrip text.data))) = .error () →
      freeTextPlan text exec = .likeFallback (String.mk (pyStrip text.data))) := by
  refine ⟨tokenizeCh_tokens _, ?_, ?_, ?_⟩
  · intro hne
    exact ftsExec_built_ok store _ hne
      (fun x hx => (tokenizeCh_tokens _ x hx).2)
  · intro he
    rw [freeTextPlan_eq, if_pos he]
  · intro exec herr
    rw [freeTextPlan_eq]
    by_cases he : tokenizeCh (pyStrip text.data) = []
    · rw [if_pos he]
    · rw [if_neg he, herr]

/-- C3 witness: the input "-BB-SK 2307" starts with an FTS5 operator
character, yet tokenizes to the literal tokens BB-SK and 2307 and the
built query runs without a syntax error, matching the row whose plate
holds that text. -/
theorem free_text_query_safety_witness :
    tokenizeCh (pyStrip ("-BB-SK 2307" : String).data) ≠ [] ∧
    ftsExecOnStore ftsDemoStore
        (buildFtsQuery (tokenizeCh (pyStrip ("-BB-SK 2307" : String).data))) =
      .ok (((ftsDemoStore.filter
        (ftsRowMatch (tokenizeCh (pyStrip ("-BB-SK 2307" : String).data)))).map
          (fun r => r.id)).take 200) :=
  ⟨by decide,
    (free_text_query_safety "-BB-SK 2307" ftsDemoStore).2.1 (by decide)⟩

/-- The one-row orders store of the implicit-fallback example: an order
whose short_name contains "lan" as a substring of a longer word, so the
index token lan matches nothing but the LIKE scan hits. -/
def likeDemoStore : List QRow :=
  [⟨9, "Plan123", "", "", "", "", "", "", ""⟩]

/-- C10: Implicit empty-FTS fallback (tool.py lines 2169-2189). When the
index search succeeds but returns zero rows, the stage does not keep the
empty result: it falls back to the LIKE scan of the raw input over the
text columns — and that scan can return rows, as the concrete input
"lan" against a store whose only row is named "Plan123" shows: the index
matches nothing, yet the query returns the row. -/
theorem fts_empty_fallback :
    (∀ (text : String) (exec : List Char → Except Unit (List Int)),
      exec (buildFtsQuery (tokenizeCh (pyStrip text.data))) = .ok [] →
      freeTextPlan text exec = .likeFallback (String.mk (pyStrip text.data))) ∧
    ftsExecOnStore likeDemoStore
        (buildFtsQuery (tokenizeCh (pyStrip ("lan" : String).data))) =
      .ok [] ∧
    execFreeText likeDemoStore
        (freeTextPlan "lan" (ftsExecOnStore likeDemoStore)) =
      likeDemoStore := by
  refine ⟨?_, by rfl, by decide⟩
  intro text exec hok
  rw [freeTextPlan_eq]
  by_cases he : tokenizeCh (pyStrip text.data) = []
  · rw [if_pos he]
  · rw [if_neg he, hok]

/-- C10 witness: the fallback clause of the theorem applied at the input
"lan" and an index executor that finds nothing. -/
theorem fts_empty_fallback_witness :
    freeTextPlan "lan" (fun _ => (Except.ok [] : Except Unit (List Int))) =
      .likeFallback (String.mk (pyStrip ("lan" : String).data)) :=
  fts_empty_fallback.1 "lan" (fun _ => Except.ok []) rfl
